import Mathlib

set_option maxRecDepth 2048

/-!
Shallow embedding of the mouse-trajectory generator `HumanMouseSimulator`
from `src/DrissionPage_/2.py`.

Modelling conventions:
- Python floats are modelled by exact rationals (`ℚ`).
- `math.sqrt` is modelled by `ratSqrt`, a computable rational square root
  that is exact on perfect squares of integers and always within `10⁻⁶`
  below the true square root.
- `math.cos` / `math.sin` / `math.pi` (used only by the angular-jitter
  branch and by the arc skeleton) are abstract parameters collected in
  `TrigEnv`; no claim depends on their numeric values.
- The global `random` module is modelled by `Rng`: a stream `u` of
  uniform-`[0,1]` draws (backing `random.random`, `random.uniform`,
  `random.choices`) and a stream `g` of standard-normal draws (backing
  `random.gauss`), each with a cursor.  `random.uniform a b` is
  `a + (b - a) * u`, `random.gauss 0 sigma` is `sigma * g`.
- `time.time()` is the parameter `now` (the code reads the clock once per
  skeleton/short-trajectory call, and only one of those runs per
  top-level call).
-/

/-- Mouse trajectory point (dataclass `MousePoint`, lines 10-19).
Velocity and acceleration fields default to `0.0`. -/
structure MousePoint where
  x : ℚ
  y : ℚ
  timestamp : ℚ
  velocity_x : ℚ := 0
  velocity_y : ℚ := 0
  acceleration_x : ℚ := 0
  acceleration_y : ℚ := 0
deriving DecidableEq

/-- Model of Python's global `random`: a stream `u` of uniform-`[0,1]`
draws and a stream `g` of standard-normal draws, with cursors. -/
structure Rng where
  u : ℕ → ℚ
  g : ℕ → ℚ
  ui : ℕ
  gi : ℕ

namespace Rng

/-- `random.random()`: next uniform draw. -/
def unit (r : Rng) : ℚ × Rng := (r.u r.ui, { r with ui := r.ui + 1 })

/-- `random.uniform(a, b) = a + (b-a) * random.random()`. -/
def uniform (r : Rng) (a b : ℚ) : ℚ × Rng :=
  let p := r.unit
  (a + (b - a) * p.1, p.2)

/-- `random.gauss(mu, sigma) = mu + sigma * z` with `z` a standard normal
draw taken from the `g` stream. -/
def gauss (r : Rng) (mu sigma : ℚ) : ℚ × Rng :=
  (mu + sigma * r.g r.gi, { r with gi := r.gi + 1 })

/-- A random source is valid when every uniform draw lies in `[0, 1]`.
The normal draws are unconstrained. -/
def Valid (r : Rng) : Prop := ∀ n, 0 ≤ r.u n ∧ r.u n ≤ 1

end Rng

/-- Abstract stand-ins for `math.cos`, `math.sin` and `math.pi`. -/
structure TrigEnv where
  cosF : ℚ → ℚ
  sinF : ℚ → ℚ
  piF : ℚ

/-- Python `int()` on a float: truncation toward zero. -/
def pyInt (q : ℚ) : ℤ := if 0 ≤ q then ⌊q⌋ else -⌊-q⌋

/-- Newton iteration for the integer square root of `n`, with explicit
fuel so that it is structurally recursive.  On fuel exhaustion it returns
`0`, so the result always satisfies `g * g ≤ n`.  The guesses at least
halve while more than `√n`, so fuel `240` suffices for every `n < 2^400`;
all numbers in this development are far smaller. -/
def isqrtAux (n : ℕ) : ℕ → ℕ → ℕ
  | 0, _ => 0
  | fuel + 1, g =>
    let next := (g + n / g) / 2
    if next < g then isqrtAux n fuel next else g

/-- Integer square root (floor), Newton's method. -/
def isqrt (n : ℕ) : ℕ := if n ≤ 1 then n else isqrtAux n 240 (n / 2)

/-- Model of `math.sqrt` on rationals: for `q = a / b` (reduced, `a, b ≥ 0`)
returns `⌊√(a * b * 10¹²)⌋ / (b * 10⁶)`, which is exact when `q` is a
perfect square of an integer and in general lies within `10⁻⁶` below the
true square root. -/
def ratSqrt (q : ℚ) : ℚ :=
  (isqrt (q.num.toNat * q.den * 10 ^ 12) : ℚ) / ((q.den : ℚ) * 10 ^ 6)

/-! Configuration constants from `HumanMouseSimulator.__init__` (lines 25-41). -/

/-- `base_noise_amplitude = 2.0` -/
def base_noise_amplitude : ℚ := 2
/-- `direction_change_probability = 0.15` -/
def direction_change_probability : ℚ := 3 / 20
/-- `micro_correction_probability = 0.25` -/
def micro_correction_probability : ℚ := 1 / 4
/-- `max_acceleration = 800` -/
def max_acceleration : ℚ := 800
/-- `min_time_interval = 0.008` -/
def min_time_interval : ℚ := 1 / 125
/-- `max_time_interval = 0.025` -/
def max_time_interval : ℚ := 1 / 40
/-- lower end of `avg_speed_range = (150, 400)` -/
def avg_speed_low : ℚ := 150
/-- upper end of `avg_speed_range = (150, 400)` -/
def avg_speed_high : ℚ := 400
/-- `pause_probability = 0.08` -/
def pause_probability : ℚ := 2 / 25
/-- `overshoot_probability = 0.12` -/
def overshoot_probability : ℚ := 3 / 25
/-- `bezier_control_range = 0.3` -/
def bezier_control_range : ℚ := 3 / 10

/-- `num_points = max(10, min(int(duration / step), 100))` as appearing in
all four skeleton generators. -/
def numPointsFor (duration step : ℚ) : ℕ :=
  (max 10 (min (pyInt (duration / step)) 100)).toNat

/-- `_ease_in_out_cubic` (lines 455-460). -/
def ease_in_out_cubic (t : ℚ) : ℚ :=
  if t < 1 / 2 then 4 * t * t * t
  else (t - 1) * (2 * t - 2) * (2 * t - 2) + 1

/-- `_quadratic_bezier_points` (lines 229-250). -/
def quadratic_bezier_points (r : Rng) (p0 p1 p2 : ℚ × ℚ) (duration now : ℚ) :
    List MousePoint × Rng :=
  let stepU := r.uniform min_time_interval max_time_interval
  let n := numPointsFor duration stepU.1
  (((List.range (n + 1)).map fun (i : ℕ) =>
      let t : ℚ := (i : ℚ) / (n : ℚ)
      ⟨(1 - t) ^ 2 * p0.1 + 2 * (1 - t) * t * p1.1 + t ^ 2 * p2.1,
       (1 - t) ^ 2 * p0.2 + 2 * (1 - t) * t * p1.2 + t ^ 2 * p2.2,
       now + t * duration, 0, 0, 0, 0⟩),
   stepU.2)

/-- `_cubic_bezier_points` (lines 252-274). -/
def cubic_bezier_points (r : Rng) (p0 p1 p2 p3 : ℚ × ℚ) (duration now : ℚ) :
    List MousePoint × Rng :=
  let stepU := r.uniform min_time_interval max_time_interval
  let n := numPointsFor duration stepU.1
  (((List.range (n + 1)).map fun (i : ℕ) =>
      let t : ℚ := (i : ℚ) / (n : ℚ)
      ⟨(1 - t) ^ 3 * p0.1 + 3 * (1 - t) ^ 2 * t * p1.1 +
         3 * (1 - t) * t ^ 2 * p2.1 + t ^ 3 * p3.1,
       (1 - t) ^ 3 * p0.2 + 3 * (1 - t) ^ 2 * t * p1.2 +
         3 * (1 - t) * t ^ 2 * p2.2 + t ^ 3 * p3.2,
       now + t * duration, 0, 0, 0, 0⟩),
   stepU.2)

/-- `_generate_arc_trajectory` (lines 156-199). -/
def generate_arc_trajectory (env : TrigEnv) (r : Rng) (s e : ℚ × ℚ)
    (duration now : ℚ) : List MousePoint × Rng :=
  let dx := e.1 - s.1
  let dy := e.2 - s.2
  let distance := ratSqrt (dx ^ 2 + dy ^ 2)
  let hU := r.uniform (distance * (1 / 10)) (distance * (3 / 10))
  let sU := hU.2.unit
  let arc_height := if sU.1 < 1 / 2 then -hU.1 else hU.1
  let stepU := sU.2.uniform min_time_interval max_time_interval
  let n := numPointsFor duration stepU.1
  (((List.range (n + 1)).map fun (i : ℕ) =>
      let t : ℚ := (i : ℚ) / (n : ℚ)
      let mid_x := s.1 + dx * t
      let mid_y := s.2 + dy * t
      let off := arc_height * env.sinF (env.piF * t)
      if |dy| < |dx| then ⟨mid_x, mid_y + off, now + t * duration, 0, 0, 0, 0⟩
      else ⟨mid_x + off, mid_y, now + t * duration, 0, 0, 0, 0⟩),
   stepU.2)

/-- `_generate_curved_direct_trajectory` (lines 201-227). -/
def generate_curved_direct_trajectory (r : Rng) (s e : ℚ × ℚ)
    (duration now : ℚ) : List MousePoint × Rng :=
  let dx := e.1 - s.1
  let dy := e.2 - s.2
  let stepU := r.uniform min_time_interval max_time_interval
  let n := numPointsFor duration stepU.1
  (((List.range (n + 1)).map fun (i : ℕ) =>
      let t : ℚ := (i : ℚ) / (n : ℚ)
      let et := ease_in_out_cubic t
      ⟨s.1 + dx * et, s.2 + dy * et, now + t * duration, 0, 0, 0, 0⟩),
   stepU.2)

/-- The three skeleton styles. -/
inductive TrajKind
  | bezier
  | arc
  | curved_direct
deriving DecidableEq

/-- `_choose_trajectory_type` (lines 117-129).  `random.choices` with
weights summing to `1.0` picks by the position of `random.random()` in the
cumulative weights. -/
def choose_trajectory_type (r : Rng) (s e : ℚ × ℚ) : TrajKind × Rng :=
  let distance := ratSqrt ((e.1 - s.1) ^ 2 + (e.2 - s.2) ^ 2)
  let tU := r.unit
  if 300 < distance then
    (if tU.1 < 1 / 2 then .bezier else if tU.1 < 4 / 5 then .arc
     else .curved_direct, tU.2)
  else
    (if tU.1 < 3 / 10 then .bezier else if tU.1 < 1 / 2 then .arc
     else .curved_direct, tU.2)

/-- `_generate_bezier_trajectory` (lines 131-154). -/
def generate_bezier_trajectory (r : Rng) (s e : ℚ × ℚ) (duration now : ℚ) :
    List MousePoint × Rng :=
  let mid_x := (s.1 + e.1) / 2
  let mid_y := (s.2 + e.2) / 2
  let distance := ratSqrt ((e.1 - s.1) ^ 2 + (e.2 - s.2) ^ 2)
  let offset_range := distance * bezier_control_range
  let c1x := r.uniform (-offset_range) offset_range
  let c1y := c1x.2.uniform (-offset_range) offset_range
  let choice := c1y.2.unit
  if choice.1 < 3 / 5 then
    let c2x := choice.2.uniform (-offset_range / 2) (offset_range / 2)
    let c2y := c2x.2.uniform (-offset_range / 2) (offset_range / 2)
    cubic_bezier_points c2y.2 s (mid_x + c1x.1, mid_y + c1y.1)
      (mid_x + c2x.1, mid_y + c2y.1) e duration now
  else
    quadratic_bezier_points choice.2 s (mid_x + c1x.1, mid_y + c1y.1) e
      duration now

/-- Dispatch on the chosen skeleton style: the `if`/`elif`/`else` of
`_generate_base_trajectory` (lines 108-113). -/
def dispatchSkeleton (env : TrigEnv) (k : TrajKind) (r : Rng) (s e : ℚ × ℚ)
    (duration now : ℚ) : List MousePoint × Rng :=
  match k with
  | .bezier => generate_bezier_trajectory r s e duration now
  | .arc => generate_arc_trajectory env r s e duration now
  | .curved_direct => generate_curved_direct_trajectory r s e duration now

/-- `_generate_base_trajectory` (lines 99-115). -/
def generate_base_trajectory (env : TrigEnv) (r : Rng) (s e : ℚ × ℚ)
    (duration now : ℚ) : List MousePoint × Rng :=
  let kU := choose_trajectory_type r s e
  dispatchSkeleton env kU.1 kU.2 s e duration now

/-- `_add_overshoot` (lines 321-357).  Note `overshoot_distance` is drawn
before the `distance > 0` guard. -/
def add_overshoot (r : Rng) (pts : List MousePoint) : List MousePoint × Rng :=
  if pts.length < 5 then (pts, r) else
  let target := pts.getLastD ⟨0, 0, 0, 0, 0, 0, 0⟩
  let pre := pts.dropLast.getLastD ⟨0, 0, 0, 0, 0, 0, 0⟩
  let dx := target.x - pre.x
  let dy := target.y - pre.y
  let odU := r.uniform 5 15
  let distance := ratSqrt (dx ^ 2 + dy ^ 2)
  if 0 < distance then
    let tsU := odU.2.uniform (1 / 20) (1 / 10)
    let op : MousePoint :=
      ⟨target.x + dx / distance * odU.1, target.y + dy / distance * odU.1,
       target.timestamp + tsU.1, 0, 0, 0, 0⟩
    let cxU := tsU.2.uniform (-2) 2
    let cyU := cxU.2.uniform (-2) 2
    let ctU := cyU.2.uniform (1 / 10) (1 / 5)
    (pts ++ [op, ⟨target.x + cxU.1, target.y + cyU.1,
                  op.timestamp + ctU.1, 0, 0, 0, 0⟩], ctU.2)
  else (pts, odU.2)

/-- Micro-correction and pause handling for one point of
`_add_human_characteristics` (lines 284-296).  `new_point` starts as a
fresh `MousePoint(point.x, point.y, point.timestamp)`.  The pause check
draw is consumed for every point, but the pause only fires when
`i > 0` (`first = false`). -/
def microAndPause (r : Rng) (p : MousePoint) (first : Bool) :
    MousePoint × Rng :=
  let mU := r.unit
  let s1 : MousePoint × Rng :=
    if mU.1 < micro_correction_probability then
      let cx := mU.2.uniform (-3) 3
      let cy := cx.2.uniform (-3) 3
      ({ p with x := p.x + cx.1, y := p.y + cy.1 }, cy.2)
    else (p, mU.2)
  let pU := s1.2.unit
  if pU.1 < pause_probability ∧ first = false then
    let dU := pU.2.uniform (1 / 20) (1 / 5)
    ({ s1.1 with timestamp := s1.1.timestamp + dU.1 }, dU.2)
  else (s1.1, pU.2)

/-- Direction micro-adjustment for one point with index `i > 0`
(lines 299-311).  The rotation is taken relative to the raw previous
input point `points[i-1]`. -/
def directionStep (env : TrigEnv) (r : Rng) (prevRaw p : MousePoint) :
    MousePoint × Rng :=
  let dU := r.unit
  if dU.1 < direction_change_probability then
    let aU := dU.2.uniform (-(1 / 5)) (1 / 5)
    let dx := p.x - prevRaw.x
    let dy := p.y - prevRaw.y
    let ca := env.cosF aU.1
    let sa := env.sinF aU.1
    ({ p with x := prevRaw.x + (dx * ca - dy * sa),
              y := prevRaw.y + (dx * sa + dy * ca) }, aU.2)
  else (p, dU.2)

/-- Per-point loop of `_add_human_characteristics` for indices `i ≥ 1`;
`prevRaw` is the raw input point `points[i-1]`. -/
def addHumanAux (env : TrigEnv) (r : Rng) (prevRaw : MousePoint) :
    List MousePoint → List MousePoint × Rng
  | [] => ([], r)
  | p :: rest =>
    let base : MousePoint := ⟨p.x, p.y, p.timestamp, 0, 0, 0, 0⟩
    let s1 := microAndPause r base false
    let s2 := directionStep env s1.2 prevRaw s1.1
    let tail := addHumanAux env s2.2 p rest
    (s2.1 :: tail.1, tail.2)

/-- `_add_human_characteristics` (lines 276-319). -/
def add_human_characteristics (env : TrigEnv) (r : Rng)
    (pts : List MousePoint) : List MousePoint × Rng :=
  if pts.length < 3 then (pts, r) else
  match pts with
  | [] => (pts, r)
  | p0 :: rest =>
    let base0 : MousePoint := ⟨p0.x, p0.y, p0.timestamp, 0, 0, 0, 0⟩
    let s0 := microAndPause r base0 true
    let tail := addHumanAux env s0.2 p0 rest
    let enhanced := s0.1 :: tail.1
    let oU := tail.2.unit
    if oU.1 < overshoot_probability ∧ 1 < enhanced.length then
      add_overshoot oU.2 enhanced
    else (enhanced, oU.2)

/-- Velocity update for point `i ≥ 1` (lines 365-369): positions are not
modified in this pass, so pairing each point with its raw predecessor is
faithful. -/
def velStep (prev p : MousePoint) : MousePoint :=
  let dt := p.timestamp - prev.timestamp
  if 0 < dt then
    { p with velocity_x := (p.x - prev.x) / dt,
             velocity_y := (p.y - prev.y) / dt }
  else p

/-- Acceleration update for point `i ≥ 2` (lines 371-375), run after the
velocity pass is complete. -/
def accStep (prev p : MousePoint) : MousePoint :=
  let dt := p.timestamp - prev.timestamp
  if 0 < dt then
    { p with acceleration_x := (p.velocity_x - prev.velocity_x) / dt,
             acceleration_y := (p.velocity_y - prev.velocity_y) / dt }
  else p

/-- First pass of `_apply_smoothing_and_noise`: velocities for `i ≥ 1`. -/
def velPass : List MousePoint → List MousePoint
  | [] => []
  | p :: rest => p :: List.zipWith velStep (p :: rest) rest

/-- Second pass: accelerations for `i ≥ 2`, on the velocity-pass output. -/
def accPass : List MousePoint → List MousePoint
  | [] => []
  | [p] => [p]
  | p :: q :: rest => p :: q :: List.zipWith accStep (q :: rest) rest

/-- Speed-adaptive Gaussian noise for the point at offset `k` of the tail
(i.e. index `k + 1`, skipping the start point; lines 378-388).  Point
`k + 1` consumes normal draws `2k` (for x) and `2k + 1` (for y). -/
def noiseAt (r : Rng) (k : ℕ) (p : MousePoint) : MousePoint :=
  let speed := ratSqrt (p.velocity_x ^ 2 + p.velocity_y ^ 2)
  let nf := max (1 / 2) (min 2 (speed / 200))
  { p with x := p.x + base_noise_amplitude * nf * r.g (r.gi + 2 * k),
           y := p.y + base_noise_amplitude * nf * r.g (r.gi + 2 * k + 1) }

/-- Tail of the noise pass: applies `noiseAt` with consecutive offsets. -/
def noiseTail (r : Rng) (k : ℕ) : List MousePoint → List MousePoint
  | [] => []
  | p :: rest => noiseAt r k p :: noiseTail r (k + 1) rest

/-- Noise pass over every point except the first. -/
def noisePass (r : Rng) (pts : List MousePoint) : List MousePoint × Rng :=
  match pts with
  | [] => ([], r)
  | p :: rest =>
    (p :: noiseTail r 0 rest, { r with gi := r.gi + 2 * rest.length })

/-- `_apply_smoothing_and_noise` (lines 359-390). -/
def apply_smoothing_and_noise (r : Rng) (pts : List MousePoint) :
    List MousePoint × Rng :=
  if pts.length < 3 then (pts, r)
  else noisePass r (accPass (velPass pts))

/-- Intermediate point `i` of `k` between `a` and `b`, at parameter
`t = i / (k + 1)` with position jitter `jx`, `jy` (lines 429-440). -/
def insertPoint (a b : MousePoint) (k i : ℕ) (jx jy : ℚ) : MousePoint :=
  let t : ℚ := (i : ℚ) / ((k : ℚ) + 1)
  ⟨a.x + (b.x - a.x) * t + jx, a.y + (b.y - a.y) * t + jy,
   a.timestamp + (b.timestamp - a.timestamp) * t, 0, 0, 0, 0⟩

/-- `_insert_intermediate_points` (lines 424-441): returns the list of
synthesized points appended to `validated_points`.  Each intermediate
consumes two uniform draws (x jitter then y jitter),
`uniform (-1) 1 = -1 + 2u`. -/
def insert_intermediate_points (r : Rng) (a b : MousePoint) :
    List MousePoint × Rng :=
  let k := (pyInt ((b.timestamp - a.timestamp) / max_time_interval)).toNat
  (((List.range k).map fun j =>
      insertPoint a b k (j + 1) (-1 + 2 * r.u (r.ui + 2 * j))
        (-1 + 2 * r.u (r.ui + 2 * j + 1))),
   { r with ui := r.ui + 2 * k })

/-- Acceleration check on an accepted point (lines 413-418): positions are
averaged with the previous accepted point, the acceleration fields are
left untouched. -/
def accelCheck (prev cur : MousePoint) : MousePoint :=
  if max_acceleration < |cur.acceleration_x| ∨
      max_acceleration < |cur.acceleration_y| then
    { cur with x := (cur.x + prev.x) / 2, y := (cur.y + prev.y) / 2 }
  else cur

/-- Main loop of `_final_trajectory_validation` (lines 399-421); `prev` is
the last accepted output point `validated_points[-1]`. -/
def validateAux (r : Rng) (prev : MousePoint) :
    List MousePoint → List MousePoint × Rng
  | [] => ([], r)
  | cur :: rest =>
    let dt := cur.timestamp - prev.timestamp
    if dt < min_time_interval then
      let c2 := accelCheck prev
        { cur with timestamp := prev.timestamp + min_time_interval }
      let tail := validateAux r c2 rest
      (c2 :: tail.1, tail.2)
    else if max_time_interval * 3 < dt then
      let mids := insert_intermediate_points r prev cur
      let tail := validateAux mids.2 (mids.1.getLastD prev) rest
      (mids.1 ++ tail.1, tail.2)
    else
      let c2 := accelCheck prev cur
      let tail := validateAux r c2 rest
      (c2 :: tail.1, tail.2)

/-- `_final_trajectory_validation` (lines 392-422). -/
def final_trajectory_validation (r : Rng) (pts : List MousePoint) :
    List MousePoint × Rng :=
  if pts.length < 2 then (pts, r)
  else
    match pts with
    | [] => (pts, r)
    | p0 :: rest =>
      let tail := validateAux r p0 rest
      (p0 :: tail.1, tail.2)

/-- `_generate_short_trajectory` (lines 443-453). -/
def generate_short_trajectory (r : Rng) (s e : ℚ × ℚ) (now : ℚ) :
    List MousePoint × Rng :=
  let jx := r.uniform (-1) 1
  let jy := jx.2.uniform (-1) 1
  let jt := jy.2.uniform (1 / 10) (3 / 10)
  ([⟨s.1, s.2, now, 0, 0, 0, 0⟩,
    ⟨e.1 + jx.1, e.2 + jy.1, now + jt.1, 0, 0, 0, 0⟩], jt.2)

/-- `_calculate_realistic_duration` (lines 80-97). -/
def calculate_realistic_duration (r : Rng) (distance : ℚ) : ℚ × Rng :=
  let sU := r.uniform avg_speed_low avg_speed_high
  let base := distance / sU.1
  let b2 : ℚ × Rng :=
    if 500 < distance then
      let m := sU.2.uniform (11 / 10) (13 / 10); (base * m.1, m.2)
    else if distance < 100 then
      let m := sU.2.uniform (4 / 5) 1; (base * m.1, m.2)
    else (base, sU.2)
  let vU := b2.2.uniform (7 / 10) (7 / 5)
  (max (1 / 5) (min (b2.1 * vU.1) 3), vU.2)

/-- `generate_trajectory` (lines 43-78), the top-level entry point. -/
def generate_trajectory (env : TrigEnv) (r : Rng) (now : ℚ) (s e : ℚ × ℚ)
    (duration : Option ℚ) : List MousePoint :=
  let distance := ratSqrt ((e.1 - s.1) ^ 2 + (e.2 - s.2) ^ 2)
  if distance < 5 then (generate_short_trajectory r s e now).1
  else
    let dr : ℚ × Rng :=
      match duration with
      | none => calculate_realistic_duration r distance
      | some d => (d, r)
    let base := generate_base_trajectory env dr.2 s e dr.1 now
    let human := add_human_characteristics env base.2 base.1
    let smooth := apply_smoothing_and_noise human.2 human.1
    (final_trajectory_validation smooth.2 smooth.1).1

/-! Auxiliary definitions used by the verification below. -/

/-- The fresh copy `MousePoint(point.x, point.y, point.timestamp)` made by
`_add_human_characteristics` for every input point. -/
def freshPt (p : MousePoint) : MousePoint := ⟨p.x, p.y, p.timestamp, 0, 0, 0, 0⟩

/-- `TsFrom i l` says the timestamps of `l` are `9*(i+1)/100`,
`9*(i+2)/100`, ... — the skeleton timestamps of a 9-second run sampled at
101 points starting from index `i + 1`. -/
def TsFrom : ℕ → List MousePoint → Prop
  | _, [] => True
  | i, p :: rest => p.timestamp = 9 * (i + 1 : ℕ) / 100 ∧ TsFrom (i + 1) rest

/-- All-zero normal stream: every Gaussian noise draw is `0`. -/
def gZero : ℕ → ℚ := fun _ => 0

/-- Trig model used for concrete runs: values are irrelevant on these runs
except `sinF 0 = 0`, which is true of `math.sin`. -/
def env0 : TrigEnv := ⟨fun _ => 1, fun _ => 0, 355 / 113⟩

/-- Uniform stream for the C1 counterexample run: decline every
probabilistic branch except a micro-correction of `(+2.4, +2.4)` on point
5 (check draw at index 19), and pick the skeleton step so that `N = 10`
(draw at index 4). -/
def uC1 : ℕ → ℚ := fun n => if n = 19 then 0 else if n = 4 then 7 / 10 else 9 / 10

/-- Random source for the C1 counterexample run. -/
def rngC1 : Rng := ⟨uC1, gZero, 0, 0⟩

/-- Uniform stream for the C3 counterexample run: every draw is `0.9`, so
every probabilistic branch declines and the skeleton style is
curved-direct. -/
def uC3 : ℕ → ℚ := fun _ => 9 / 10

/-- Random source for the C3 counterexample run. -/
def rngC3 : Rng := ⟨uC3, gZero, 0, 0⟩

/-- Uniform stream for the C4 counterexample run: speed draw `1` (400
px/s), variation draw `0` (0.7), step draw `1` (0.025, so `N = 19`),
micro-correction accepted on point 0 (index 4) with offsets `+2.7`
(indices 5, 6), all other branches declined. -/
def uC4 : ℕ → ℚ := fun n =>
  if n = 0 ∨ n = 3 then 1 else if n = 1 ∨ n = 4 then 0
  else if n = 5 ∨ n = 6 then 19 / 20 else 9 / 10

/-- Random source for the C4 counterexample run. -/
def rngC4 : Rng := ⟨uC4, gZero, 0, 0⟩

/-- Constant-1/2 uniform stream, used by witnesses. -/
def uHalf : ℕ → ℚ := fun _ => 1 / 2

/-- Random source used by witnesses. -/
def rngHalf : Rng := ⟨uHalf, gZero, 0, 0⟩

/-- Origin point used as a concrete input by witnesses. -/
def originPt : MousePoint := ⟨0, 0, 0, 0, 0, 0, 0⟩

/-- Second concrete point used by witnesses: `0.1` seconds after
`originPt`, which forces the intermediate-insertion branch
(`0.1 > 3 * 0.025`). -/
def latePt : MousePoint := ⟨1, 1, 1 / 10, 0, 0, 0, 0⟩

/-- Concrete point with an out-of-cap acceleration field, used by the C1
witness. -/
def hotPt : MousePoint := ⟨1, 1, 1 / 50, 0, 0, 900, 0⟩

/-- Adjacent-pair property enforced by the validator: consecutive
timestamps differ by at least `min_time_interval`. -/
def minGap (p q : MousePoint) : Prop :=
  p.timestamp + min_time_interval ≤ q.timestamp

/-- Adjacent-pair property: timestamps are non-decreasing. -/
def tsMono (p q : MousePoint) : Prop := p.timestamp ≤ q.timestamp

/-! Facts about the square-root model. -/

theorem isqrtAux_mul_self_le (n : ℕ) : ∀ fuel g, isqrtAux n fuel g * isqrtAux n fuel g ≤ n := by
  intro fuel
  induction fuel with
  | zero => intro g; simp [isqrtAux]
  | succ fuel ih =>
    intro g
    rw [isqrtAux]
    split
    · exact ih _
    · rename_i hstop
      rcases Nat.eq_zero_or_pos g with hg | hg
      · subst hg; simp
      · have h2 : g * 2 ≤ g + n / g := (Nat.le_div_iff_mul_le (by norm_num)).mp (Nat.le_of_not_lt hstop)
        have h3 : g ≤ n / g := by omega
        exact (Nat.le_div_iff_mul_le hg).mp h3

theorem isqrt_mul_self_le (n : ℕ) : isqrt n * isqrt n ≤ n := by
  rw [isqrt]
  split
  · rename_i h
    interval_cases n <;> simp
  · exact isqrtAux_mul_self_le n 240 (n / 2)

theorem ratSqrt_nonneg (q : ℚ) : 0 ≤ ratSqrt q := by
  rw [ratSqrt]
  positivity

theorem ratSqrt_sq_le (q : ℚ) (hq : 0 ≤ q) : ratSqrt q ^ 2 ≤ q := by
  rw [ratSqrt]
  have hden : (0 : ℚ) < (q.den : ℚ) := by exact_mod_cast q.den_pos
  have hnumZ : (q.num.toNat : ℤ) = q.num := Int.toNat_of_nonneg (Rat.num_nonneg.mpr hq)
  have hnum : ((q.num.toNat : ℕ) : ℚ) = ((q.num : ℤ) : ℚ) := by exact_mod_cast hnumZ
  set m := q.num.toNat * q.den * 10 ^ 12 with hm
  have h2 : ((isqrt m : ℚ)) ^ 2 ≤ (m : ℚ) := by
    have h1 : (isqrt m * isqrt m : ℕ) ≤ m := isqrt_mul_self_le m
    calc ((isqrt m : ℚ)) ^ 2 = ((isqrt m * isqrt m : ℕ) : ℚ) := by push_cast; ring
    _ ≤ (m : ℚ) := by exact_mod_cast h1
  rw [div_pow, div_le_iff₀ (by positivity)]
  have hqm : q * ((q.den : ℚ) * 10 ^ 6) ^ 2 = (m : ℚ) := by
    rw [hm]
    push_cast
    rw [hnum]
    nth_rewrite 1 [← Rat.num_div_den q]
    field_simp
    ring
  rw [hqm]
  exact h2

theorem ratSqrt_lt_five (q : ℚ) (h0 : 0 ≤ q) (h : q < 25) : ratSqrt q < 5 := by
  nlinarith [ratSqrt_sq_le q h0, ratSqrt_nonneg q]

/-! Lengths of the pipeline stages. -/

theorem velPass_length (l : List MousePoint) : (velPass l).length = l.length := by
  cases l with
  | nil => rfl
  | cons p rest => simp [velPass]

theorem accPass_length (l : List MousePoint) : (accPass l).length = l.length := by
  match l with
  | [] => rfl
  | [p] => rfl
  | p :: q :: rest => simp [accPass]

theorem noiseTail_length (r : Rng) : ∀ k l, (noiseTail r k l).length = l.length := by
  intro k l
  induction l generalizing k with
  | nil => rfl
  | cons p rest ih => simp [noiseTail, ih]

theorem noisePass_fst_length (r : Rng) (l : List MousePoint) :
    ((noisePass r l).1).length = l.length := by
  cases l with
  | nil => rfl
  | cons p rest => simp [noisePass, noiseTail_length]

theorem smoothing_fst_length (r : Rng) (l : List MousePoint) :
    ((apply_smoothing_and_noise r l).1).length = l.length := by
  rw [apply_smoothing_and_noise]
  split
  · rfl
  · rw [noisePass_fst_length, accPass_length, velPass_length]

theorem addHumanAux_fst_length (env : TrigEnv) :
    ∀ l r prevRaw, ((addHumanAux env r prevRaw l).1).length = l.length := by
  intro l
  induction l with
  | nil => intro r prevRaw; rfl
  | cons p rest ih => intro r prevRaw; simp [addHumanAux, ih]

theorem add_overshoot_fst_length_ge (r : Rng) (l : List MousePoint) :
    l.length ≤ ((add_overshoot r l).1).length := by
  simp only [add_overshoot]
  split
  · exact le_refl _
  · split
    · simp
    · exact le_refl _

theorem chars_fst_length_ge (env : TrigEnv) (r : Rng) (l : List MousePoint) :
    l.length ≤ ((add_human_characteristics env r l).1).length := by
  simp only [add_human_characteristics]
  split
  · exact le_refl _
  · split
    · exact le_refl _
    · rename_i p0 rest
      split
      · refine le_trans ?_ (add_overshoot_fst_length_ge _ _)
        simp [addHumanAux_fst_length]
      · simp [addHumanAux_fst_length]

theorem pyInt_toNat_ge_three {q : ℚ} (h : 3 < q) :
    3 ≤ (pyInt q).toNat := by
  have h0 : (0 : ℚ) ≤ q := by linarith
  have : (3 : ℤ) ≤ pyInt q := by
    rw [pyInt, if_pos h0]
    exact Int.le_floor.mpr (by exact_mod_cast h.le)
  omega

theorem insert_fst_length (r : Rng) (a b : MousePoint) :
    ((insert_intermediate_points r a b).1).length =
      (pyInt ((b.timestamp - a.timestamp) / max_time_interval)).toNat := by
  simp [insert_intermediate_points]

theorem insert_count_ge_three {a b : MousePoint}
    (h : max_time_interval * 3 < b.timestamp - a.timestamp) :
    3 ≤ (pyInt ((b.timestamp - a.timestamp) / max_time_interval)).toNat := by
  apply pyInt_toNat_ge_three
  rw [max_time_interval] at h ⊢
  rw [lt_div_iff₀ (by norm_num)]
  linarith

theorem validateAux_fst_length_pos (r : Rng) (prev cur : MousePoint)
    (rest : List MousePoint) :
    1 ≤ ((validateAux r prev (cur :: rest)).1).length := by
  simp only [validateAux]
  split
  · simp
  · split
    · rename_i hlt hgt
      have h3 := insert_count_ge_three hgt
      simp only [List.length_append, insert_fst_length]
      omega
    · simp

theorem validation_eq_cons (r : Rng) (p0 cur : MousePoint)
    (rest : List MousePoint) :
    final_trajectory_validation r (p0 :: cur :: rest) =
      (p0 :: (validateAux r p0 (cur :: rest)).1,
       (validateAux r p0 (cur :: rest)).2) := by
  rw [final_trajectory_validation.eq_def]
  rw [if_neg (by simp)]

theorem validation_fst_length_ge_two (r : Rng) (l : List MousePoint)
    (h : 2 ≤ l.length) :
    2 ≤ ((final_trajectory_validation r l).1).length := by
  cases l with
  | nil => simp at h
  | cons p0 l2 =>
    cases l2 with
    | nil => simp at h
    | cons cur rest =>
      rw [validation_eq_cons]
      have := validateAux_fst_length_pos r p0 cur rest
      simp only [List.length_cons]
      omega

theorem numPointsFor_ge_ten (d s : ℚ) : 10 ≤ numPointsFor d s := by
  have h := le_max_left (10 : ℤ) (min (pyInt (d / s)) 100)
  rw [numPointsFor]
  omega

theorem quadratic_fst_length_ge (r : Rng) (p0 p1 p2 : ℚ × ℚ) (d now : ℚ) :
    11 ≤ ((quadratic_bezier_points r p0 p1 p2 d now).1).length := by
  simp only [quadratic_bezier_points, List.length_map, List.length_range]
  have := numPointsFor_ge_ten d ((r.uniform min_time_interval max_time_interval).1)
  omega

theorem cubic_fst_length_ge (r : Rng) (p0 p1 p2 p3 : ℚ × ℚ) (d now : ℚ) :
    11 ≤ ((cubic_bezier_points r p0 p1 p2 p3 d now).1).length := by
  simp only [cubic_bezier_points, List.length_map, List.length_range]
  have := numPointsFor_ge_ten d ((r.uniform min_time_interval max_time_interval).1)
  omega

theorem arc_fst_length_ge (env : TrigEnv) (r : Rng) (s e : ℚ × ℚ) (d now : ℚ) :
    11 ≤ ((generate_arc_trajectory env r s e d now).1).length := by
  simp only [generate_arc_trajectory, List.length_map, List.length_range]
  exact Nat.add_le_add_right (numPointsFor_ge_ten _ _) 1

theorem curved_fst_length_ge (r : Rng) (s e : ℚ × ℚ) (d now : ℚ) :
    11 ≤ ((generate_curved_direct_trajectory r s e d now).1).length := by
  simp only [generate_curved_direct_trajectory, List.length_map, List.length_range]
  have := numPointsFor_ge_ten d ((r.uniform min_time_interval max_time_interval).1)
  omega

theorem bezier_fst_length_ge (r : Rng) (s e : ℚ × ℚ) (d now : ℚ) :
    11 ≤ ((generate_bezier_trajectory r s e d now).1).length := by
  simp only [generate_bezier_trajectory]
  split
  · exact cubic_fst_length_ge _ _ _ _ _ _ _
  · exact quadratic_fst_length_ge _ _ _ _ _ _

theorem dispatch_fst_length_ge (env : TrigEnv) (k : TrajKind) (r : Rng)
    (s e : ℚ × ℚ) (d now : ℚ) :
    11 ≤ ((dispatchSkeleton env k r s e d now).1).length := by
  cases k with
  | bezier => exact bezier_fst_length_ge _ _ _ _ _
  | arc => exact arc_fst_length_ge _ _ _ _ _ _
  | curved_direct => exact curved_fst_length_ge _ _ _ _ _

theorem base_fst_length_ge (env : TrigEnv) (r : Rng) (s e : ℚ × ℚ) (d now : ℚ) :
    11 ≤ ((generate_base_trajectory env r s e d now).1).length :=
  dispatch_fst_length_ge env _ _ s e d now

/-! Heads of the pipeline stages. -/

theorem velPass_head? (l : List MousePoint) : (velPass l).head? = l.head? := by
  cases l <;> rfl

theorem accPass_head? (l : List MousePoint) : (accPass l).head? = l.head? := by
  match l with
  | [] => rfl
  | [p] => rfl
  | p :: q :: rest => rfl

theorem noisePass_fst_head? (r : Rng) (l : List MousePoint) :
    ((noisePass r l).1).head? = l.head? := by
  cases l <;> rfl

theorem smoothing_fst_head? (r : Rng) (l : List MousePoint) :
    ((apply_smoothing_and_noise r l).1).head? = l.head? := by
  rw [apply_smoothing_and_noise]
  split
  · rfl
  · rw [noisePass_fst_head?, accPass_head?, velPass_head?]

theorem validation_fst_head? (r : Rng) (l : List MousePoint) :
    ((final_trajectory_validation r l).1).head? = l.head? := by
  cases l with
  | nil => rfl
  | cons p0 l2 =>
    cases l2 with
    | nil => rfl
    | cons cur rest => rw [validation_eq_cons]; rfl

theorem add_overshoot_fst_head? (r : Rng) (l : List MousePoint) :
    ((add_overshoot r l).1).head? = l.head? := by
  simp only [add_overshoot]
  split
  · rfl
  · rename_i h5
    split
    · cases l with
      | nil => simp at h5
      | cons p t => simp
    · rfl

theorem microAndPause_first (r : Rng) (p : MousePoint) :
    ∃ c1 c2,
      (microAndPause r p true).1 = { p with x := p.x + c1, y := p.y + c2 } ∧
      (Rng.Valid r → |c1| ≤ 3 ∧ |c2| ≤ 3) := by
  simp only [microAndPause, Bool.true_eq_false, and_false, if_false]
  split
  · refine ⟨(Rng.uniform _ (-3) 3).1, (Rng.uniform _ (-3) 3).1, rfl, ?_⟩
    intro hv
    simp only [Rng.uniform, Rng.unit]
    obtain ⟨ha1, hb1⟩ := hv (r.ui + 1)
    obtain ⟨ha2, hb2⟩ := hv (r.ui + 1 + 1)
    constructor <;> rw [abs_le] <;> constructor <;> linarith
  · refine ⟨0, 0, ?_, fun _ => by norm_num⟩
    cases p
    simp

theorem chars_head_eq (env : TrigEnv) (r : Rng) (q : MousePoint)
    (rest : List MousePoint) (h3 : 3 ≤ (q :: rest).length) :
    ((add_human_characteristics env r (q :: rest)).1).head? =
      some ((microAndPause r (freshPt q) true).1) := by
  have hc : ¬((q :: rest).length < 3) := by omega
  simp only [add_human_characteristics]
  rw [if_neg hc]
  split
  · rw [add_overshoot_fst_head?]
    rfl
  · rfl

theorem curved_fst_head? (r : Rng) (s e : ℚ × ℚ) (d now : ℚ) :
    ((generate_curved_direct_trajectory r s e d now).1).head? =
      some ⟨s.1, s.2, now, 0, 0, 0, 0⟩ := by
  simp only [generate_curved_direct_trajectory, List.range_succ_eq_map,
    List.map_cons, List.head?_cons]
  norm_num [ease_in_out_cubic]

theorem quadratic_fst_head? (r : Rng) (p0 p1 p2 : ℚ × ℚ) (d now : ℚ) :
    ((quadratic_bezier_points r p0 p1 p2 d now).1).head? =
      some ⟨p0.1, p0.2, now, 0, 0, 0, 0⟩ := by
  simp only [quadratic_bezier_points, List.range_succ_eq_map,
    List.map_cons, List.head?_cons]
  norm_num

theorem cubic_fst_head? (r : Rng) (p0 p1 p2 p3 : ℚ × ℚ) (d now : ℚ) :
    ((cubic_bezier_points r p0 p1 p2 p3 d now).1).head? =
      some ⟨p0.1, p0.2, now, 0, 0, 0, 0⟩ := by
  simp only [cubic_bezier_points, List.range_succ_eq_map,
    List.map_cons, List.head?_cons]
  norm_num

theorem arc_fst_head? (env : TrigEnv) (r : Rng) (s e : ℚ × ℚ) (d now : ℚ)
    (hs : env.sinF 0 = 0) :
    ((generate_arc_trajectory env r s e d now).1).head? =
      some ⟨s.1, s.2, now, 0, 0, 0, 0⟩ := by
  simp only [generate_arc_trajectory, List.range_succ_eq_map,
    List.map_cons, List.head?_cons]
  rw [show ((0 : ℕ) : ℚ) / (numPointsFor d ((((r.uniform
      (ratSqrt ((e.1 - s.1) ^ 2 + (e.2 - s.2) ^ 2) * (1 / 10))
      (ratSqrt ((e.1 - s.1) ^ 2 + (e.2 - s.2) ^ 2) * (3 / 10))).2.unit).2.uniform
      min_time_interval max_time_interval).1) : ℚ) = 0 by norm_num]
  simp only [mul_zero]
  rw [hs]
  split <;> norm_num

theorem bezier_fst_head? (r : Rng) (s e : ℚ × ℚ) (d now : ℚ) :
    ((generate_bezier_trajectory r s e d now).1).head? =
      some ⟨s.1, s.2, now, 0, 0, 0, 0⟩ := by
  simp only [generate_bezier_trajectory]
  split
  · exact cubic_fst_head? _ _ _ _ _ _ _
  · exact quadratic_fst_head? _ _ _ _ _ _

theorem dispatch_fst_head? (env : TrigEnv) (k : TrajKind) (r : Rng)
    (s e : ℚ × ℚ) (d now : ℚ) (hs : env.sinF 0 = 0) :
    ((dispatchSkeleton env k r s e d now).1).head? =
      some ⟨s.1, s.2, now, 0, 0, 0, 0⟩ := by
  cases k with
  | bezier => exact bezier_fst_head? _ _ _ _ _
  | arc => exact arc_fst_head? _ _ _ _ _ _ hs
  | curved_direct => exact curved_fst_head? _ _ _ _ _

theorem base_fst_head? (env : TrigEnv) (r : Rng) (s e : ℚ × ℚ) (d now : ℚ)
    (hs : env.sinF 0 = 0) :
    ((generate_base_trajectory env r s e d now).1).head? =
      some ⟨s.1, s.2, now, 0, 0, 0, 0⟩ :=
  dispatch_fst_head? env _ _ s e d now hs

/-! The minimum-gap invariant of the validator (C2 machinery). -/

theorem accelCheck_timestamp (prev cur : MousePoint) :
    (accelCheck prev cur).timestamp = cur.timestamp := by
  rw [accelCheck]
  split <;> rfl

theorem getLast?_cons_eq {α : Type} (a : α) (l : List α) :
    (a :: l).getLast? = some (l.getLastD a) := by
  induction l generalizing a with
  | nil => rfl
  | cons b t ih => rw [List.getLast?_cons_cons, ih b, List.getLastD_cons]

theorem chain'_cons_map_range {α : Type} (P : α → α → Prop) :
    ∀ (k : ℕ) (g : ℕ → α) (a : α), (0 < k → P a (g 0)) →
      (∀ j, j + 1 < k → P (g j) (g (j + 1))) →
      List.Chain' P (a :: (List.range k).map g) := by
  intro k
  induction k with
  | zero => intro g a _ _; simp
  | succ k ih =>
    intro g a hhead hstep
    rw [List.range_succ_eq_map, List.map_cons, List.map_map]
    rw [List.chain'_cons]
    refine ⟨hhead (Nat.succ_pos k), ?_⟩
    have := ih (fun j => g (j + 1)) (g 0)
      (fun hk => hstep 0 (by omega))
      (fun j hj => hstep (j + 1) (by omega))
    simpa [Function.comp] using this

theorem pyInt_toNat_cast_le {q : ℚ} (hq : 0 ≤ q) :
    (((pyInt q).toNat : ℕ) : ℚ) ≤ q := by
  rw [pyInt, if_pos hq]
  have h1 : (0 : ℤ) ≤ ⌊q⌋ := Int.floor_nonneg.mpr hq
  have h2 : ((⌊q⌋.toNat : ℕ) : ℚ) = ((⌊q⌋ : ℤ) : ℚ) := by
    exact_mod_cast Int.toNat_of_nonneg h1
  rw [h2]
  exact Int.floor_le q

theorem insert_gap_ge {dt : ℚ} (h3 : max_time_interval * 3 < dt) :
    min_time_interval ≤ dt / (((pyInt (dt / max_time_interval)).toNat : ℚ) + 1) := by
  have hdt : 0 < dt := by rw [max_time_interval] at h3; linarith
  have hq : (0 : ℚ) ≤ dt / max_time_interval := by
    rw [max_time_interval]; positivity
  have hk := pyInt_toNat_cast_le hq
  set k : ℚ := (((pyInt (dt / max_time_interval)).toNat : ℕ) : ℚ) with hkdef
  have hk0 : (0 : ℚ) ≤ k := Nat.cast_nonneg _
  rw [min_time_interval]
  rw [max_time_interval] at h3 hk
  rw [le_div_iff₀ (by positivity)]
  have h40 : k ≤ 40 * dt := by
    rw [show dt / (1 / 40 : ℚ) = 40 * dt by ring] at hk
    exact hk
  linarith

theorem insertPoint_timestamp (a b : MousePoint) (k i : ℕ) (jx jy : ℚ) :
    (insertPoint a b k i jx jy).timestamp =
      a.timestamp + (b.timestamp - a.timestamp) * ((i : ℚ) / ((k : ℚ) + 1)) := rfl

theorem validateAux_chain (r : Rng) (prev : MousePoint) (l : List MousePoint) :
    List.Chain' minGap (prev :: (validateAux r prev l).1) := by
  induction l generalizing r prev with
  | nil => simp [validateAux]
  | cons cur rest ih =>
    simp only [validateAux]
    split
    · rename_i hlt
      rw [List.chain'_cons]
      constructor
      · show minGap prev _
        rw [minGap, accelCheck_timestamp]
      · exact ih _ _
    · split
      · rename_i hlt hgt
        show List.Chain' minGap (prev :: ((insert_intermediate_points r prev cur).1 ++ _))
        rw [← List.cons_append]
        set dt : ℚ := cur.timestamp - prev.timestamp with hdt
        set k : ℕ := (pyInt (dt / max_time_interval)).toNat with hkdef
        have hkpos : 0 < ((k : ℚ) + 1) := by positivity
        have hgap : min_time_interval ≤ dt / ((k : ℚ) + 1) := insert_gap_ge hgt
        apply List.Chain'.append
        · rw [insert_intermediate_points]
          apply chain'_cons_map_range
          · intro _
            show minGap prev (insertPoint prev cur k (0 + 1) _ _)
            rw [minGap, insertPoint_timestamp]
            have : ((0 + 1 : ℕ) : ℚ) / ((k : ℚ) + 1) = 1 / ((k : ℚ) + 1) := by norm_num
            rw [this]
            have : dt * (1 / ((k : ℚ) + 1)) = dt / ((k : ℚ) + 1) := by ring
            rw [this]
            linarith
          · intro j hj
            show minGap (insertPoint prev cur k (j + 1) _ _)
              (insertPoint prev cur k (j + 1 + 1) _ _)
            rw [minGap, insertPoint_timestamp, insertPoint_timestamp]
            have hstepq : dt * (((j + 1 + 1 : ℕ) : ℚ) / ((k : ℚ) + 1)) -
                dt * (((j + 1 : ℕ) : ℚ) / ((k : ℚ) + 1)) = dt / ((k : ℚ) + 1) := by
              push_cast
              field_simp
              ring
            linarith
        · have h := ih (insert_intermediate_points r prev cur).2
            ((insert_intermediate_points r prev cur).1.getLastD prev)
          exact h.tail
        · intro x hx y hy
          rw [getLast?_cons_eq] at hx
          have hx' := Option.mem_some_iff.mp hx
          have h := ih (insert_intermediate_points r prev cur).2
            ((insert_intermediate_points r prev cur).1.getLastD prev)
          have hg := (List.chain'_cons'.mp h).1 y hy
          rw [hx'] at hg
          exact hg
      · rename_i hlt hgt
        rw [List.chain'_cons]
        constructor
        · show minGap prev _
          rw [minGap, accelCheck_timestamp]
          linarith [not_lt.mp hlt]
        · exact ih _ _

/-! The validator leaves acceleration fields untouched (C1 machinery). -/

theorem accelCheck_accel (prev cur : MousePoint) :
    (accelCheck prev cur).acceleration_x = cur.acceleration_x ∧
    (accelCheck prev cur).acceleration_y = cur.acceleration_y := by
  rw [accelCheck]
  split <;> exact ⟨rfl, rfl⟩

theorem validateAux_accel_fields (l : List MousePoint) :
    ∀ (r : Rng) (prev : MousePoint), ∀ p ∈ (validateAux r prev l).1,
      (p.acceleration_x = 0 ∧ p.acceleration_y = 0) ∨
      ∃ q ∈ l, p.acceleration_x = q.acceleration_x ∧
        p.acceleration_y = q.acceleration_y := by
  induction l with
  | nil => intro r prev p hp; simp [validateAux] at hp
  | cons cur rest ih =>
    intro r prev p hp
    simp only [validateAux] at hp
    split at hp
    · rcases List.mem_cons.mp hp with hp0 | hptail
      · right
        refine ⟨cur, List.mem_cons_self _ _, ?_⟩
        subst hp0
        exact accelCheck_accel prev _
      · rcases ih _ _ p hptail with hz | ⟨q, hq, hqa⟩
        · exact Or.inl hz
        · exact Or.inr ⟨q, List.mem_cons_of_mem _ hq, hqa⟩
    · split at hp
      · rcases List.mem_append.mp hp with hmid | hptail
        · left
          rw [insert_intermediate_points] at hmid
          obtain ⟨j, _, hj⟩ := List.mem_map.mp hmid
          rw [← hj]
          exact ⟨rfl, rfl⟩
        · rcases ih _ _ p hptail with hz | ⟨q, hq, hqa⟩
          · exact Or.inl hz
          · exact Or.inr ⟨q, List.mem_cons_of_mem _ hq, hqa⟩
      · rcases List.mem_cons.mp hp with hp0 | hptail
        · right
          refine ⟨cur, List.mem_cons_self _ _, ?_⟩
          subst hp0
          exact accelCheck_accel prev _
        · rcases ih _ _ p hptail with hz | ⟨q, hq, hqa⟩
          · exact Or.inl hz
          · exact Or.inr ⟨q, List.mem_cons_of_mem _ hq, hqa⟩

theorem validation_accel_fields (r : Rng) (pts : List MousePoint) :
    ∀ p ∈ (final_trajectory_validation r pts).1,
      (p.acceleration_x = 0 ∧ p.acceleration_y = 0) ∨
      ∃ q ∈ pts, p.acceleration_x = q.acceleration_x ∧
        p.acceleration_y = q.acceleration_y := by
  intro p hp
  cases pts with
  | nil => simp [final_trajectory_validation] at hp
  | cons p0 l2 =>
    cases l2 with
    | nil =>
      rw [show final_trajectory_validation r [p0] = ([p0], r) from rfl] at hp
      exact Or.inr ⟨p, hp, rfl, rfl⟩
    | cons cur rest =>
      rw [validation_eq_cons] at hp
      rcases List.mem_cons.mp hp with hp0 | hptail
      · subst hp0
        exact Or.inr ⟨p, List.mem_cons_self _ _, rfl, rfl⟩
      · rcases validateAux_accel_fields _ _ _ p hptail with hz | ⟨q, hq, hqa⟩
        · exact Or.inl hz
        · exact Or.inr ⟨q, List.mem_cons_of_mem _ hq, hqa⟩

/-! Timestamps through the smoothing stage (C3 machinery). -/

theorem velStep_ts (a b : MousePoint) : (velStep a b).timestamp = b.timestamp := by
  rw [velStep]
  split <;> rfl

theorem accStep_ts (a b : MousePoint) : (accStep a b).timestamp = b.timestamp := by
  rw [accStep]
  split <;> rfl

theorem zipWith_ts_preserving (f : MousePoint → MousePoint → MousePoint)
    (hf : ∀ a b, (f a b).timestamp = b.timestamp) :
    ∀ (l' l : List MousePoint), l'.length ≤ l.length →
      (List.zipWith f l l').map (fun p => p.timestamp) =
        l'.map (fun p => p.timestamp) := by
  intro l'
  induction l' with
  | nil => intro l _; simp
  | cons b bs ih =>
    intro l hlen
    cases l with
    | nil => simp at hlen
    | cons a as =>
      simp only [List.zipWith_cons_cons, List.map_cons, hf a b]
      rw [ih as (by simpa using hlen)]

theorem velPass_ts (l : List MousePoint) :
    (velPass l).map (fun p => p.timestamp) = l.map (fun p => p.timestamp) := by
  cases l with
  | nil => rfl
  | cons p rest =>
    simp only [velPass, List.map_cons]
    rw [zipWith_ts_preserving velStep velStep_ts rest (p :: rest) (by simp)]

theorem accPass_ts (l : List MousePoint) :
    (accPass l).map (fun p => p.timestamp) = l.map (fun p => p.timestamp) := by
  match l with
  | [] => rfl
  | [p] => rfl
  | p :: q :: rest =>
    simp only [accPass, List.map_cons]
    rw [zipWith_ts_preserving accStep accStep_ts rest (q :: rest) (by simp)]

theorem noiseAt_ts (r : Rng) (k : ℕ) (p : MousePoint) :
    (noiseAt r k p).timestamp = p.timestamp := rfl

theorem noiseTail_ts (r : Rng) : ∀ (k : ℕ) (l : List MousePoint),
    (noiseTail r k l).map (fun p => p.timestamp) =
      l.map (fun p => p.timestamp) := by
  intro k l
  induction l generalizing k with
  | nil => rfl
  | cons p rest ih => simp only [noiseTail, List.map_cons, noiseAt_ts, ih]

theorem noisePass_fst_ts (r : Rng) (l : List MousePoint) :
    ((noisePass r l).1).map (fun p => p.timestamp) =
      l.map (fun p => p.timestamp) := by
  cases l with
  | nil => rfl
  | cons p rest => simp only [noisePass, List.map_cons, noiseTail_ts]

theorem smoothing_fst_ts (r : Rng) (l : List MousePoint) :
    ((apply_smoothing_and_noise r l).1).map (fun p => p.timestamp) =
      l.map (fun p => p.timestamp) := by
  rw [apply_smoothing_and_noise]
  split
  · rfl
  · rw [noisePass_fst_ts, accPass_ts, velPass_ts]

theorem tsFrom_of_map_eq : ∀ (l₂ l₁ : List MousePoint) (i : ℕ),
    l₁.map (fun p => p.timestamp) = l₂.map (fun p => p.timestamp) →
    TsFrom i l₁ → TsFrom i l₂ := by
  intro l₂
  induction l₂ with
  | nil => intro l₁ i _ _; rw [TsFrom]; trivial
  | cons b bs ih =>
    intro l₁ i hmap ht
    cases l₁ with
    | nil => simp at hmap
    | cons a as =>
      simp only [List.map_cons, List.cons.injEq] at hmap
      rw [TsFrom] at ht ⊢
      exact ⟨hmap.1 ▸ ht.1, ih as (i + 1) hmap.2 ht.2⟩

theorem tsFrom_map_range : ∀ (m i₀ : ℕ) (g : ℕ → MousePoint),
    (∀ j, (g j).timestamp = 9 * ((i₀ + j + 1 : ℕ) : ℚ) / 100) →
    TsFrom i₀ ((List.range m).map g) := by
  intro m
  induction m with
  | zero => intro i₀ g _; rw [List.range_zero, List.map_nil, TsFrom]; trivial
  | succ m ih =>
    intro i₀ g hg
    rw [List.range_succ_eq_map, List.map_cons, List.map_map, TsFrom]
    constructor
    · have := hg 0
      simpa using this
    · apply ih (i₀ + 1)
      intro j
      have h := hg (j + 1)
      simp only [Function.comp_apply]
      rw [h, show (i₀ + (j + 1) + 1 : ℕ) = (i₀ + 1 + j + 1 : ℕ) from by omega]

/-! Branch declines under a stream of large draws (C3 machinery). -/

theorem microAndPause_decline (r : Rng) (p : MousePoint) (first : Bool)
    (hu : ∀ n, 1 / 4 ≤ r.u n) :
    microAndPause r p first = (p, { r with ui := r.ui + 2 }) := by
  simp only [microAndPause]
  rw [if_neg (show ¬(r.unit.1 < micro_correction_probability) from
    not_lt.mpr (hu r.ui))]
  rw [if_neg (show ¬((p, r.unit.2).2.unit.1 < pause_probability ∧ first = false) from
    fun hc => absurd hc.1 (not_lt.mpr (le_trans
      (show pause_probability ≤ (1 : ℚ) / 4 by norm_num [pause_probability])
      (hu (r.ui + 1)))))]
  rfl

theorem directionStep_decline (env : TrigEnv) (r : Rng) (prevRaw p : MousePoint)
    (hu : ∀ n, 1 / 4 ≤ r.u n) :
    directionStep env r prevRaw p = (p, { r with ui := r.ui + 1 }) := by
  simp only [directionStep]
  rw [if_neg (show ¬(r.unit.1 < direction_change_probability) from
    not_lt.mpr (le_trans
      (show direction_change_probability ≤ (1 : ℚ) / 4 by
        norm_num [direction_change_probability])
      (hu r.ui)))]
  rfl

theorem addHumanAux_decline (env : TrigEnv) :
    ∀ (l : List MousePoint) (r : Rng) (prevRaw : MousePoint),
      (∀ n, 1 / 4 ≤ r.u n) →
      addHumanAux env r prevRaw l =
        (l.map freshPt, { r with ui := r.ui + 3 * l.length }) := by
  intro l
  induction l with
  | nil => intro r prevRaw _; rfl
  | cons p rest ih =>
    intro r prevRaw hu
    have h1 := microAndPause_decline r (freshPt p) false hu
    have h2 := directionStep_decline env { r with ui := r.ui + 2 } prevRaw
      (freshPt p) (fun n => hu n)
    have h3 := ih { r with ui := r.ui + 2 + 1 } p (fun n => hu n)
    simp only [addHumanAux,
      show (⟨p.x, p.y, p.timestamp, 0, 0, 0, 0⟩ : MousePoint) = freshPt p from rfl,
      h1, h2, h3, List.map_cons, List.length_cons, Prod.mk.injEq]
    refine ⟨trivial, ?_⟩
    congr 1
    omega

theorem chars_decline (env : TrigEnv) (r : Rng) (l : List MousePoint)
    (h3 : 3 ≤ l.length) (hu : ∀ n, 1 / 4 ≤ r.u n) :
    add_human_characteristics env r l =
      (l.map freshPt, { r with ui := r.ui + 3 * l.length }) := by
  cases l with
  | nil => simp at h3
  | cons p0 rest =>
    have hc : ¬((p0 :: rest).length < 3) := by omega
    have h1 := microAndPause_decline r (freshPt p0) true hu
    have h2 := addHumanAux_decline env rest { r with ui := r.ui + 2 } p0
      (fun n => hu n)
    simp only [add_human_characteristics]
    rw [if_neg hc]
    simp only [show (⟨p0.x, p0.y, p0.timestamp, 0, 0, 0, 0⟩ : MousePoint) = freshPt p0 from rfl,
      h1, h2]
    rw [if_neg (show ¬(({ r with ui := r.ui + 2 + 3 * rest.length } : Rng).unit.1 <
        overshoot_probability ∧
        1 < (freshPt p0 :: rest.map freshPt).length) from
      fun hc2 => absurd hc2.1 (not_lt.mpr (le_trans
        (show overshoot_probability ≤ (1 : ℚ) / 4 by norm_num [overshoot_probability])
        (hu _))))]
    simp only [Rng.unit, List.map_cons, List.length_cons, Prod.mk.injEq]
    refine ⟨trivial, ?_⟩
    congr 1
    omega

/-! Exact point counts for a long-duration run (C3 machinery). -/

theorem map_range_ext {α : Type} (f g : ℕ → α) (m : ℕ) (h : ∀ j, f j = g j) :
    (List.range m).map f = (List.range m).map g := by
  induction m with
  | zero => rfl
  | succ m ih =>
    rw [List.range_succ, List.map_append, List.map_append, ih,
      List.map_singleton, List.map_singleton, h m]

theorem map_range_getLastD {α : Type} (f : ℕ → α) (d : α) (m : ℕ) :
    ((List.range (m + 1)).map f).getLastD d = f m := by
  rw [List.range_succ, List.map_append, List.map_singleton]
  rw [List.getLastD_eq_getLast?, List.getLast?_concat]
  rfl

theorem insert_getLastD_ts (r : Rng) (a b d : MousePoint) (m : ℕ)
    (hk : (pyInt ((b.timestamp - a.timestamp) / max_time_interval)).toNat = m + 1) :
    (((insert_intermediate_points r a b).1).getLastD d).timestamp =
      a.timestamp + (b.timestamp - a.timestamp) *
        (((m + 1 : ℕ) : ℚ) / (((m + 1 : ℕ) : ℚ) + 1)) := by
  simp only [insert_intermediate_points]
  rw [hk, map_range_getLastD]
  rw [insertPoint_timestamp]

theorem validateAux_c3_steady :
    ∀ (l : List MousePoint) (i : ℕ) (r : Rng) (prev : MousePoint),
      TsFrom i l → 1 ≤ i →
      prev.timestamp = 9 * (i : ℚ) / 100 - 9 / 400 →
      ((validateAux r prev l).1).length = 4 * l.length := by
  intro l
  induction l with
  | nil => intro i r prev _ _ _; simp [validateAux]
  | cons cur rest ih =>
    intro i r prev ht hi hprev
    rw [TsFrom] at ht
    have hdt : cur.timestamp - prev.timestamp = 45 / 400 := by
      rw [ht.1, hprev]
      push_cast
      ring
    have hk : (pyInt ((cur.timestamp - prev.timestamp) / max_time_interval)).toNat = 4 := by
      rw [hdt, max_time_interval]
      rw [show (45 : ℚ) / 400 / (1 / 40) = 9 / 2 by norm_num]
      rw [pyInt, if_pos (by norm_num)]
      rw [show ⌊(9 / 2 : ℚ)⌋ = 4 from by rw [Int.floor_eq_iff]; norm_num]
      rfl
    simp only [validateAux]
    rw [if_neg (show ¬(cur.timestamp - prev.timestamp < min_time_interval) from by
      rw [hdt, min_time_interval]; norm_num)]
    rw [if_pos (show max_time_interval * 3 < cur.timestamp - prev.timestamp from by
      rw [hdt, max_time_interval]; norm_num)]
    have hlast : (((insert_intermediate_points r prev cur).1).getLastD prev).timestamp =
        9 * ((i + 1 : ℕ) : ℚ) / 100 - 9 / 400 := by
      rw [insert_getLastD_ts r prev cur prev 3 (by rw [hk])]
      rw [hdt, hprev]
      push_cast
      ring
    have htail := ih (i + 1) (insert_intermediate_points r prev cur).2
      (((insert_intermediate_points r prev cur).1).getLastD prev) ht.2 (by omega) hlast
    simp only [List.length_append, insert_fst_length, hk, htail, List.length_cons]
    omega

theorem validateAux_c3_start (cur : MousePoint) (rest : List MousePoint)
    (r : Rng) (prev : MousePoint)
    (ht : TsFrom 0 (cur :: rest)) (hprev : prev.timestamp = 0) :
    ((validateAux r prev (cur :: rest)).1).length = 3 + 4 * rest.length := by
  rw [TsFrom] at ht
  have hdt : cur.timestamp - prev.timestamp = 9 / 100 := by
    rw [ht.1, hprev]
    push_cast
    ring
  have hk : (pyInt ((cur.timestamp - prev.timestamp) / max_time_interval)).toNat = 3 := by
    rw [hdt, max_time_interval]
    rw [show (9 : ℚ) / 100 / (1 / 40) = 18 / 5 by norm_num]
    rw [pyInt, if_pos (by norm_num)]
    rw [show ⌊(18 / 5 : ℚ)⌋ = 3 from by rw [Int.floor_eq_iff]; norm_num]
    rfl
  simp only [validateAux]
  rw [if_neg (show ¬(cur.timestamp - prev.timestamp < min_time_interval) from by
    rw [hdt, min_time_interval]; norm_num)]
  rw [if_pos (show max_time_interval * 3 < cur.timestamp - prev.timestamp from by
    rw [hdt, max_time_interval]; norm_num)]
  have hlast : (((insert_intermediate_points r prev cur).1).getLastD prev).timestamp =
      9 * ((1 : ℕ) : ℚ) / 100 - 9 / 400 := by
    rw [insert_getLastD_ts r prev cur prev 2 (by rw [hk])]
    rw [hdt, hprev]
    push_cast
    norm_num
  have htail := validateAux_c3_steady rest 1 (insert_intermediate_points r prev cur).2
    (((insert_intermediate_points r prev cur).1).getLastD prev) ht.2 (by omega) hlast
  simp only [List.length_append, insert_fst_length, hk, htail]

theorem validation_c3_of_ts (r : Rng) (l : List MousePoint)
    (h : l.map (fun p => p.timestamp) =
      (List.range 101).map (fun i : ℕ => (i : ℚ) * 9 / 100)) :
    ((final_trajectory_validation r l).1).length = 400 := by
  cases l with
  | nil => simp at h
  | cons p0 tail =>
    rw [show (101 : ℕ) = 100 + 1 from rfl, List.range_succ_eq_map,
      List.map_cons, List.map_cons, List.map_map] at h
    rw [List.cons.injEq] at h
    obtain ⟨h0, htail⟩ := h
    have hp0 : p0.timestamp = 0 := by rw [h0]; norm_num
    have hts : TsFrom 0 tail := by
      apply tsFrom_of_map_eq tail ((List.range 100).map
        (fun j : ℕ => (⟨0, 0, 9 * ((0 + j + 1 : ℕ) : ℚ) / 100, 0, 0, 0, 0⟩ : MousePoint))) 0
      · rw [List.map_map, htail]
        apply map_range_ext
        intro j
        simp only [Function.comp_apply]
        push_cast
        ring
      · exact tsFrom_map_range 100 0 _ (fun j => rfl)
    have hlen : tail.length = 100 := by
      have hl := congrArg List.length htail
      simpa using hl
    cases tail with
    | nil => simp at hlen
    | cons cur rest =>
      rw [validation_eq_cons]
      simp only [List.length_cons]
      rw [validateAux_c3_start cur rest r p0 hts hp0]
      simp only [List.length_cons] at hlen
      omega

/-! The random source threaded through the skeleton stage keeps its
uniform stream (C3 machinery). -/

theorem choose_snd (r : Rng) (s e : ℚ × ℚ) :
    (choose_trajectory_type r s e).2 = { r with ui := r.ui + 1 } := by
  simp only [choose_trajectory_type]
  split <;> rfl

theorem bezier_snd_u (r : Rng) (s e : ℚ × ℚ) (d now : ℚ) :
    ((generate_bezier_trajectory r s e d now).2).u = r.u := by
  simp only [generate_bezier_trajectory]
  split <;> rfl

theorem dispatch_snd_u (env : TrigEnv) (k : TrajKind) (r : Rng)
    (s e : ℚ × ℚ) (d now : ℚ) :
    ((dispatchSkeleton env k r s e d now).2).u = r.u := by
  cases k with
  | bezier => exact bezier_snd_u r s e d now
  | arc => rfl
  | curved_direct => rfl

theorem base_snd_u (env : TrigEnv) (r : Rng) (s e : ℚ × ℚ) (d now : ℚ) :
    ((generate_base_trajectory env r s e d now).2).u = r.u := by
  simp only [generate_base_trajectory]
  rw [dispatch_snd_u, choose_snd]

/-! Concrete evaluations for the long-duration run (C3 machinery). -/

unseal Rat.add Rat.mul Rat.inv Rat.sub in
theorem ratSqrt_81 : ratSqrt 81 = 9 := by decide

unseal Rat.add Rat.mul Rat.inv Rat.sub in
theorem c3_choose_fst :
    (choose_trajectory_type rngC3 (0, 0) (0, 9)).1 = TrajKind.curved_direct := by
  decide

unseal Rat.add Rat.mul Rat.inv Rat.sub in
theorem c3_numPoints :
    numPointsFor 9 ((({ rngC3 with ui := rngC3.ui + 1 } : Rng).uniform
      min_time_interval max_time_interval).1) = 100 := by
  decide

theorem c3_base_fst :
    (generate_base_trajectory env0 rngC3 (0, 0) (0, 9) 9 0).1 =
      (generate_curved_direct_trajectory { rngC3 with ui := rngC3.ui + 1 }
        (0, 0) (0, 9) 9 0).1 := by
  simp only [generate_base_trajectory]
  rw [choose_snd, c3_choose_fst]
  rfl

theorem curved_fst_ts (r : Rng) (s e : ℚ × ℚ) (duration now : ℚ) :
    ((generate_curved_direct_trajectory r s e duration now).1).map
        (fun p => p.timestamp) =
      (List.range (numPointsFor duration
          ((r.uniform min_time_interval max_time_interval).1) + 1)).map
        (fun (i : ℕ) => now + (i : ℚ) /
          ((numPointsFor duration
            ((r.uniform min_time_interval max_time_interval).1) : ℕ) : ℚ) * duration) := by
  simp only [generate_curved_direct_trajectory, List.map_map]
  rfl

theorem c3_run_length :
    (generate_trajectory env0 rngC3 0 (0, 0) (0, 9) (some 9)).length = 400 := by
  have hu : ∀ n, (1 : ℚ) / 4 ≤
      ((generate_base_trajectory env0 rngC3 (0, 0) (0, 9) 9 0).2).u n := by
    rw [base_snd_u]
    intro n
    show (1 : ℚ) / 4 ≤ uC3 n
    simp only [uC3]
    norm_num
  have hlen3 : 3 ≤ ((generate_base_trajectory env0 rngC3 (0, 0) (0, 9) 9 0).1).length := by
    have h := base_fst_length_ge env0 rngC3 (0, 0) (0, 9) 9 0
    omega
  have hchars := chars_decline env0
    (generate_base_trajectory env0 rngC3 (0, 0) (0, 9) 9 0).2
    (generate_base_trajectory env0 rngC3 (0, 0) (0, 9) 9 0).1 hlen3 hu
  have hch1 : (add_human_characteristics env0
      (generate_base_trajectory env0 rngC3 (0, 0) (0, 9) 9 0).2
      (generate_base_trajectory env0 rngC3 (0, 0) (0, 9) 9 0).1).1 =
      ((generate_base_trajectory env0 rngC3 (0, 0) (0, 9) 9 0).1).map freshPt := by
    rw [hchars]
  simp only [generate_trajectory]
  rw [show ((0 : ℚ) - 0) ^ 2 + ((9 : ℚ) - 0) ^ 2 = 81 from by norm_num]
  rw [if_neg (show ¬(ratSqrt 81 < 5) from by rw [ratSqrt_81]; norm_num)]
  apply validation_c3_of_ts
  rw [smoothing_fst_ts]
  rw [hch1, List.map_map]
  rw [show ((fun p => p.timestamp) ∘ freshPt) = (fun p : MousePoint => p.timestamp)
    from rfl]
  rw [c3_base_fst]
  rw [curved_fst_ts]
  rw [c3_numPoints]
  rw [show (100 : ℕ) + 1 = 101 from rfl]
  apply map_range_ext
  intro j
  push_cast
  ring

/-! Valid random sources for the concrete runs. -/

theorem valid_rngHalf : Rng.Valid rngHalf := by
  simp only [Rng.Valid]
  intro n
  show (0 : ℚ) ≤ uHalf n ∧ uHalf n ≤ 1
  simp only [uHalf]
  norm_num

theorem valid_rngC1 : Rng.Valid rngC1 := by
  simp only [Rng.Valid]
  intro n
  show (0 : ℚ) ≤ uC1 n ∧ uC1 n ≤ 1
  simp only [uC1]
  split_ifs <;> norm_num

theorem valid_rngC3 : Rng.Valid rngC3 := by
  simp only [Rng.Valid]
  intro n
  show (0 : ℚ) ≤ uC3 n ∧ uC3 n ≤ 1
  simp only [uC3]
  norm_num

theorem valid_rngC4 : Rng.Valid rngC4 := by
  simp only [Rng.Valid]
  intro n
  show (0 : ℚ) ≤ uC4 n ∧ uC4 n ≤ 1
  simp only [uC4]
  split_ifs <;> norm_num

/-! The first point of the full pipeline (C4 and C9 machinery). -/

theorem calc_snd_u (r : Rng) (q : ℚ) :
    ((calculate_realistic_duration r q).2).u = r.u := by
  simp only [calculate_realistic_duration]
  split
  · rfl
  · split <;> rfl

theorem head_full_core (env : TrigEnv) (r' : Rng) (s e : ℚ × ℚ) (d now : ℚ)
    (hs : env.sinF 0 = 0) :
    ∃ p rest c1 c2,
      (final_trajectory_validation
        (apply_smoothing_and_noise
          (add_human_characteristics env
            (generate_base_trajectory env r' s e d now).2
            (generate_base_trajectory env r' s e d now).1).2
          (add_human_characteristics env
            (generate_base_trajectory env r' s e d now).2
            (generate_base_trajectory env r' s e d now).1).1).2
        (apply_smoothing_and_noise
          (add_human_characteristics env
            (generate_base_trajectory env r' s e d now).2
            (generate_base_trajectory env r' s e d now).1).2
          (add_human_characteristics env
            (generate_base_trajectory env r' s e d now).2
            (generate_base_trajectory env r' s e d now).1).1).1).1 = p :: rest ∧
      p = ⟨s.1 + c1, s.2 + c2, now, 0, 0, 0, 0⟩ ∧
      (Rng.Valid r' → |c1| ≤ 3 ∧ |c2| ≤ 3) := by
  set B := generate_base_trajectory env r' s e d now with hB
  set CH := add_human_characteristics env B.2 B.1 with hCH
  set SM := apply_smoothing_and_noise CH.2 CH.1 with hSM
  have hbh : (B.1).head? = some ⟨s.1, s.2, now, 0, 0, 0, 0⟩ := by
    rw [hB]
    exact base_fst_head? env r' s e d now hs
  have hbl : 11 ≤ (B.1).length := by
    rw [hB]
    exact base_fst_length_ge env r' s e d now
  cases hB1 : B.1 with
  | nil => rw [hB1] at hbh; simp at hbh
  | cons q0 brest =>
    rw [hB1] at hbh hbl
    simp only [List.head?_cons, Option.some.injEq] at hbh
    simp only [List.length_cons] at hbl
    have hlen3 : 3 ≤ (q0 :: brest).length := by
      simp only [List.length_cons]
      omega
    obtain ⟨c1, c2, hmp, hbnd⟩ := microAndPause_first B.2 (freshPt q0)
    have hhd : (CH.1).head? = some ((microAndPause B.2 (freshPt q0) true).1) := by
      rw [hCH, hB1]
      exact chars_head_eq env B.2 q0 brest hlen3
    rw [hmp] at hhd
    have hshd : (SM.1).head? = (CH.1).head? := by
      rw [hSM]
      exact smoothing_fst_head? _ _
    have hvhd : ((final_trajectory_validation SM.2 SM.1).1).head? =
        some ({ freshPt q0 with x := (freshPt q0).x + c1, y := (freshPt q0).y + c2 }) := by
      rw [validation_fst_head?, hshd, hhd]
    have h2 : 2 ≤ ((final_trajectory_validation SM.2 SM.1).1).length := by
      apply validation_fst_length_ge_two
      rw [hSM, smoothing_fst_length, hCH]
      refine le_trans ?_ (chars_fst_length_ge _ _ _)
      rw [hB1]
      simp only [List.length_cons]
      omega
    cases hF : (final_trajectory_validation SM.2 SM.1).1 with
    | nil => rw [hF] at h2; simp at h2
    | cons p prest =>
      rw [hF] at hvhd
      simp only [List.head?_cons, Option.some.injEq] at hvhd
      refine ⟨p, prest, c1, c2, rfl, ?_, ?_⟩
      · rw [hvhd, hbh]
        exact rfl
      · intro hv
        apply hbnd
        intro n
        rw [hB, base_snd_u]
        exact hv n

theorem generate_head_full (env : TrigEnv) (r : Rng) (now : ℚ) (s e : ℚ × ℚ)
    (dur : Option ℚ) (hs : env.sinF 0 = 0)
    (hfar : ¬(ratSqrt ((e.1 - s.1) ^ 2 + (e.2 - s.2) ^ 2) < 5)) :
    ∃ p rest c1 c2, generate_trajectory env r now s e dur = p :: rest ∧
      p = ⟨s.1 + c1, s.2 + c2, now, 0, 0, 0, 0⟩ ∧
      (Rng.Valid r → |c1| ≤ 3 ∧ |c2| ≤ 3) := by
  cases dur with
  | none =>
    simp only [generate_trajectory]
    rw [if_neg hfar]
    obtain ⟨p, rest, c1, c2, h1, h2, h3⟩ := head_full_core env
      (calculate_realistic_duration r (ratSqrt ((e.1 - s.1) ^ 2 + (e.2 - s.2) ^ 2))).2
      s e
      (calculate_realistic_duration r (ratSqrt ((e.1 - s.1) ^ 2 + (e.2 - s.2) ^ 2))).1
      now hs
    refine ⟨p, rest, c1, c2, h1, h2, fun hv => h3 ?_⟩
    intro n
    rw [calc_snd_u]
    exact hv n
  | some d =>
    simp only [generate_trajectory]
    rw [if_neg hfar]
    exact head_full_core env r s e d now hs

/-! The ten claims. -/

/-- C1 (amended): after `_final_trajectory_validation` has run, every
point of the returned trajectory has acceleration fields that are either
both zero (a synthesized intermediate point) or exactly those of some
input point: the validator's acceleration check averages positions only
and never alters or clamps an acceleration field, so no bound of
`max_acceleration` on accelerations is enforced (the original cap claim
is refuted by `C1_accel_cap_counterexample`). -/
theorem C1_accel_fields_unclamped (r : Rng) (pts : List MousePoint)
    (p : MousePoint) (hp : p ∈ (final_trajectory_validation r pts).1) :
    (p.acceleration_x = 0 ∧ p.acceleration_y = 0) ∨
    ∃ q ∈ pts, p.acceleration_x = q.acceleration_x ∧
      p.acceleration_y = q.acceleration_y :=
  validation_accel_fields r pts p hp

unseal Rat.add Rat.mul Rat.inv Rat.sub in
theorem C1_accel_fields_unclamped_witness :
    originPt ∈ (final_trajectory_validation rngHalf [originPt, latePt]).1 ∧
    ((originPt.acceleration_x = 0 ∧ originPt.acceleration_y = 0) ∨
      ∃ q ∈ [originPt, latePt], originPt.acceleration_x = q.acceleration_x ∧
        originPt.acceleration_y = q.acceleration_y) :=
  ⟨by decide,
   C1_accel_fields_unclamped rngHalf [originPt, latePt] originPt (by decide)⟩

set_option maxRecDepth 100000 in
unseal Rat.add Rat.mul Rat.inv Rat.sub in
/-- C1 counterexample: a full-pipeline run over a distance of 9 with a
valid draw stream returns a point whose acceleration field exceeds
`max_acceleration = 800` (it is 6000): the validator does not cap
accelerations. -/
theorem C1_accel_cap_counterexample :
    Rng.Valid rngC1 ∧
    5 ≤ ratSqrt (((0 : ℚ) - 0) ^ 2 + ((9 : ℚ) - 0) ^ 2) ∧
    ∃ p ∈ generate_trajectory env0 rngC1 0 (0, 0) (0, 9) none,
      max_acceleration < |p.acceleration_x| := by
  refine ⟨valid_rngC1, ?_, by decide⟩
  rw [show ((0 : ℚ) - 0) ^ 2 + ((9 : ℚ) - 0) ^ 2 = 81 from by norm_num, ratSqrt_81]
  norm_num

/-- C2: after `_final_trajectory_validation` has run, every pair of
adjacent points of the returned trajectory is separated by at least
`min_time_interval = 0.008`; in particular timestamps are non-decreasing,
including across the synthesized intermediate points. -/
theorem C2_validator_min_gap (r : Rng) (pts : List MousePoint) :
    List.Chain' minGap ((final_trajectory_validation r pts).1) ∧
    List.Chain' tsMono ((final_trajectory_validation r pts).1) := by
  have hchain : List.Chain' minGap ((final_trajectory_validation r pts).1) := by
    match pts with
    | [] => simp [final_trajectory_validation]
    | [p] =>
      rw [show final_trajectory_validation r [p] = ([p], r) from rfl]
      simp
    | p0 :: cur :: rest =>
      rw [validation_eq_cons]
      exact validateAux_chain r p0 (cur :: rest)
  refine ⟨hchain, List.Chain'.imp ?_ hchain⟩
  intro p q hpq
  rw [minGap, min_time_interval] at hpq
  rw [tsMono]
  linarith

/-- C3 (amended): for every start, end, clock value, optional duration and
every draw stream, the trajectory returned by `generate_trajectory` has at
least 2 points.  The upper bound of 130 in the original claim does not
hold: with a caller-supplied duration of 9 s the validator inserts
intermediate points up to a length of 400
(see `C3_length_counterexample`). -/
theorem C3_length_lower_bound (env : TrigEnv) (r : Rng) (now : ℚ)
    (s e : ℚ × ℚ) (dur : Option ℚ) :
    2 ≤ (generate_trajectory env r now s e dur).length := by
  simp only [generate_trajectory]
  split
  · simp [generate_short_trajectory]
  · apply validation_fst_length_ge_two
    rw [smoothing_fst_length]
    refine le_trans ?_ (chars_fst_length_ge _ _ _)
    exact le_trans (by norm_num) (base_fst_length_ge _ _ _ _ _ _)

/-- C3 counterexample: start `(0,0)`, end `(0,9)` (distance 9 ≥ 5,
start ≠ end), a valid draw stream and duration 9 s produce a trajectory of
400 points, far beyond the claimed bound of 130: nothing clamps the point
count after the validator's intermediate insertion. -/
theorem C3_length_counterexample :
    Rng.Valid rngC3 ∧
    ((0 : ℚ), (0 : ℚ)) ≠ ((0 : ℚ), (9 : ℚ)) ∧
    5 ≤ ratSqrt (((0 : ℚ) - 0) ^ 2 + ((9 : ℚ) - 0) ^ 2) ∧
    130 < (generate_trajectory env0 rngC3 0 (0, 0) (0, 9) (some 9)).length := by
  refine ⟨valid_rngC3, ?_, ?_, ?_⟩
  · simp only [ne_eq, Prod.mk.injEq]
    norm_num
  · rw [show ((0 : ℚ) - 0) ^ 2 + ((9 : ℚ) - 0) ^ 2 = 81 from by norm_num, ratSqrt_81]
    norm_num
  · rw [c3_run_length]
    norm_num

unseal Rat.add Rat.mul Rat.inv Rat.sub in
/-- C4 (amended): with `start = (100,100)`, `end = (300,300)`, no duration
override, a sine model with `sin 0 = 0` and any valid draw stream, the
returned trajectory is non-empty, its first point keeps the start's
timestamp `now`, and its position lies within 3 px of the start in each
coordinate.  Exact equality with the start does not hold: the
micro-correction of `_add_human_characteristics` is applied to index 0 as
well (see `C4_first_point_counterexample`). -/
theorem C4_first_point_near_start (env : TrigEnv) (r : Rng) (now : ℚ)
    (hs : env.sinF 0 = 0) (hv : Rng.Valid r) :
    ∃ p rest,
      generate_trajectory env r now (100, 100) (300, 300) none = p :: rest ∧
      |p.x - 100| ≤ 3 ∧ |p.y - 100| ≤ 3 ∧ p.timestamp = now := by
  obtain ⟨p, rest, c1, c2, heq, hp, hbnd⟩ := generate_head_full env r now
    (100, 100) (300, 300) none hs (by decide)
  obtain ⟨h1, h2⟩ := hbnd hv
  refine ⟨p, rest, heq, ?_, ?_, ?_⟩
  · rw [hp, show (100 : ℚ) + c1 - 100 = c1 from by ring]
    exact h1
  · rw [hp, show (100 : ℚ) + c2 - 100 = c2 from by ring]
    exact h2
  · rw [hp]

theorem C4_first_point_near_start_witness :
    env0.sinF 0 = 0 ∧ Rng.Valid rngHalf ∧
    ∃ p rest,
      generate_trajectory env0 rngHalf 0 (100, 100) (300, 300) none = p :: rest ∧
      |p.x - 100| ≤ 3 ∧ |p.y - 100| ≤ 3 ∧ p.timestamp = 0 :=
  ⟨rfl, valid_rngHalf,
   C4_first_point_near_start env0 rngHalf 0 rfl valid_rngHalf⟩

set_option maxRecDepth 100000 in
unseal Rat.add Rat.mul Rat.inv Rat.sub in
/-- C4 counterexample: a valid draw stream that accepts the
micro-correction on the first point moves it to `(102.7, 102.7)`, so the
first point's position does not equal the requested start `(100,100)`. -/
theorem C4_first_point_counterexample :
    Rng.Valid rngC4 ∧
    (generate_trajectory env0 rngC4 0 (100, 100) (300, 300) none).head? =
      some ⟨1027 / 10, 1027 / 10, 0, 0, 0, 0, 0⟩ ∧
    (1027 : ℚ) / 10 ≠ 100 := by
  exact ⟨valid_rngC4, by decide, by norm_num⟩

/-- C5: when the start-to-end distance is under 5, `generate_trajectory`
returns exactly two points: the start at time `now`, and the end offset
per coordinate by an independent uniform jitter in `[-1, 1]` at time
`now + U(0.1, 0.3)`; every other stage is bypassed. -/
theorem C5_short_trajectory_form (env : TrigEnv) (r : Rng) (now : ℚ)
    (s e : ℚ × ℚ) (dur : Option ℚ)
    (hnear : ratSqrt ((e.1 - s.1) ^ 2 + (e.2 - s.2) ^ 2) < 5)
    (hv : Rng.Valid r) :
    ∃ jx jy jt,
      generate_trajectory env r now s e dur =
        [⟨s.1, s.2, now, 0, 0, 0, 0⟩,
         ⟨e.1 + jx, e.2 + jy, now + jt, 0, 0, 0, 0⟩] ∧
      |jx| ≤ 1 ∧ |jy| ≤ 1 ∧ 1 / 10 ≤ jt ∧ jt ≤ 3 / 10 := by
  simp only [generate_trajectory]
  rw [if_pos hnear]
  simp only [generate_short_trajectory, Rng.uniform, Rng.unit]
  refine ⟨_, _, _, rfl, ?_, ?_, ?_, ?_⟩
  · obtain ⟨h0, h1⟩ := hv r.ui
    rw [abs_le]
    constructor <;> linarith
  · obtain ⟨h0, h1⟩ := hv (r.ui + 1)
    rw [abs_le]
    constructor <;> linarith
  · obtain ⟨h0, h1⟩ := hv (r.ui + 1 + 1)
    linarith
  · obtain ⟨h0, h1⟩ := hv (r.ui + 1 + 1)
    linarith

unseal Rat.add Rat.mul Rat.inv Rat.sub in
theorem C5_short_trajectory_form_witness :
    ratSqrt ((((1 : ℚ), (1 : ℚ)).1 - ((0 : ℚ), (0 : ℚ)).1) ^ 2 +
      (((1 : ℚ), (1 : ℚ)).2 - ((0 : ℚ), (0 : ℚ)).2) ^ 2) < 5 ∧
    Rng.Valid rngHalf ∧
    ∃ jx jy jt,
      generate_trajectory env0 rngHalf 0 (0, 0) (1, 1) none =
        [⟨0, 0, 0, 0, 0, 0, 0⟩, ⟨1 + jx, 1 + jy, 0 + jt, 0, 0, 0, 0⟩] ∧
      |jx| ≤ 1 ∧ |jy| ≤ 1 ∧ 1 / 10 ≤ jt ∧ jt ≤ 3 / 10 :=
  ⟨by decide, valid_rngHalf,
   C5_short_trajectory_form env0 rngHalf 0 (0, 0) (1, 1) none (by decide)
     valid_rngHalf⟩

/-- C6: whenever the gap between the current input point and the last
accepted point exceeds `3 * max_time_interval`, the validator appends
exactly `k = int(dt / max_time_interval)` synthesized points — the `j`-th
placed by linear interpolation of position and time at parameter
`(j+1)/(k+1)`, displaced by independent uniform jitter in `[-1, 1]` in
`x` and `y` with no jitter in time — and drops the current input point,
continuing from the last synthesized point. -/
theorem C6_gap_insertion (r : Rng) (prev cur : MousePoint)
    (rest : List MousePoint)
    (hgap : max_time_interval * 3 < cur.timestamp - prev.timestamp)
    (hv : Rng.Valid r) :
    (validateAux r prev (cur :: rest)).1 =
      (insert_intermediate_points r prev cur).1 ++
        (validateAux (insert_intermediate_points r prev cur).2
          (((insert_intermediate_points r prev cur).1).getLastD prev) rest).1 ∧
    ((insert_intermediate_points r prev cur).1).length =
      (pyInt ((cur.timestamp - prev.timestamp) / max_time_interval)).toNat ∧
    ∀ j < (pyInt ((cur.timestamp - prev.timestamp) / max_time_interval)).toNat,
      ∃ jx jy, |jx| ≤ 1 ∧ |jy| ≤ 1 ∧
        ((insert_intermediate_points r prev cur).1)[j]? =
          some (insertPoint prev cur
            ((pyInt ((cur.timestamp - prev.timestamp) / max_time_interval)).toNat)
            (j + 1) jx jy) := by
  refine ⟨?_, insert_fst_length r prev cur, ?_⟩
  · simp only [validateAux]
    rw [if_neg (show ¬(cur.timestamp - prev.timestamp < min_time_interval) from by
      rw [min_time_interval]
      rw [max_time_interval] at hgap
      intro hlt
      linarith)]
    rw [if_pos hgap]
  · intro j hj
    refine ⟨-1 + 2 * r.u (r.ui + 2 * j), -1 + 2 * r.u (r.ui + 2 * j + 1),
      ?_, ?_, ?_⟩
    · obtain ⟨h0, h1⟩ := hv (r.ui + 2 * j)
      rw [abs_le]
      constructor <;> linarith
    · obtain ⟨h0, h1⟩ := hv (r.ui + 2 * j + 1)
      rw [abs_le]
      constructor <;> linarith
    · simp only [insert_intermediate_points]
      rw [List.getElem?_map, List.getElem?_range hj]
      rfl

unseal Rat.add Rat.mul Rat.inv Rat.sub in
theorem C6_gap_insertion_witness :
    (max_time_interval * 3 < latePt.timestamp - originPt.timestamp) ∧
    Rng.Valid rngHalf ∧
    ((validateAux rngHalf originPt (latePt :: [])).1 =
      (insert_intermediate_points rngHalf originPt latePt).1 ++
        (validateAux (insert_intermediate_points rngHalf originPt latePt).2
          (((insert_intermediate_points rngHalf originPt latePt).1).getLastD
            originPt) []).1 ∧
    ((insert_intermediate_points rngHalf originPt latePt).1).length =
      (pyInt ((latePt.timestamp - originPt.timestamp) / max_time_interval)).toNat ∧
    ∀ j < (pyInt ((latePt.timestamp - originPt.timestamp) /
        max_time_interval)).toNat,
      ∃ jx jy, |jx| ≤ 1 ∧ |jy| ≤ 1 ∧
        ((insert_intermediate_points rngHalf originPt latePt).1)[j]? =
          some (insertPoint originPt latePt
            ((pyInt ((latePt.timestamp - originPt.timestamp) /
              max_time_interval)).toNat)
            (j + 1) jx jy)) :=
  ⟨by decide, valid_rngHalf,
   C6_gap_insertion rngHalf originPt latePt [] (by decide) valid_rngHalf⟩

/-- C7: with the caller omitting the duration, the duration computed by
`_calculate_realistic_duration` lies in `[0.2, 3.0]` for every distance
and every sequence of draws: the speed, scaling and variation draws are
followed by a final clamp `max(0.2, min(d, 3.0))`. -/
theorem C7_duration_bounds (r : Rng) (distance : ℚ) :
    1 / 5 ≤ (calculate_realistic_duration r distance).1 ∧
    (calculate_realistic_duration r distance).1 ≤ 3 := by
  simp only [calculate_realistic_duration]
  exact ⟨le_max_left _ _, max_le (by norm_num) (min_le_right _ _)⟩

/-- C8: `generate_trajectory` is deterministic given its random and clock
inputs: two runs from random sources with identical draw streams and
cursors, the same clock value and the same endpoints and duration produce
identical trajectories, field for field. -/
theorem C8_deterministic (env : TrigEnv) (now : ℚ) (s e : ℚ × ℚ)
    (dur : Option ℚ) (r1 r2 : Rng)
    (hu : ∀ n, r1.u n = r2.u n) (hg : ∀ n, r1.g n = r2.g n)
    (hui : r1.ui = r2.ui) (hgi : r1.gi = r2.gi) :
    generate_trajectory env r1 now s e dur =
      generate_trajectory env r2 now s e dur := by
  have h : r1 = r2 := by
    cases r1
    cases r2
    simp only [Rng.mk.injEq]
    exact ⟨funext hu, funext hg, hui, hgi⟩
  rw [h]

theorem C8_deterministic_witness :
    (∀ n, rngHalf.u n = rngHalf.u n) ∧
    generate_trajectory env0 rngHalf 0 (0, 0) (0, 9) none =
      generate_trajectory env0 rngHalf 0 (0, 0) (0, 9) none :=
  ⟨fun _ => rfl,
   C8_deterministic env0 0 (0, 0) (0, 9) none rngHalf rngHalf
     (fun _ => rfl) (fun _ => rfl) rfl rfl⟩

/-- C9: for every invocation of `generate_trajectory` — short-distance
fallback or full pipeline — the returned trajectory starts with a point
whose velocity and acceleration fields are all zero: the finite-difference
passes start at indices 1 and 2, the noise pass skips index 0, and the
validator passes the first point through. -/
theorem C9_first_point_zero_derivatives (env : TrigEnv) (r : Rng) (now : ℚ)
    (s e : ℚ × ℚ) (dur : Option ℚ) (hs : env.sinF 0 = 0) :
    ∃ p rest, generate_trajectory env r now s e dur = p :: rest ∧
      p.velocity_x = 0 ∧ p.velocity_y = 0 ∧
      p.acceleration_x = 0 ∧ p.acceleration_y = 0 := by
  by_cases hnear : ratSqrt ((e.1 - s.1) ^ 2 + (e.2 - s.2) ^ 2) < 5
  · refine ⟨⟨s.1, s.2, now, 0, 0, 0, 0⟩,
      [⟨e.1 + (r.uniform (-1) 1).1,
        e.2 + (((r.uniform (-1) 1).2).uniform (-1) 1).1,
        now + (((((r.uniform (-1) 1).2).uniform (-1) 1).2).uniform
          (1 / 10) (3 / 10)).1, 0, 0, 0, 0⟩],
      ?_, rfl, rfl, rfl, rfl⟩
    simp only [generate_trajectory]
    rw [if_pos hnear]
    rfl
  · obtain ⟨p, rest, c1, c2, heq, hp, _⟩ :=
      generate_head_full env r now s e dur hs hnear
    refine ⟨p, rest, heq, ?_, ?_, ?_, ?_⟩ <;> rw [hp]

theorem C9_first_point_zero_derivatives_witness :
    env0.sinF 0 = 0 ∧
    ∃ p rest, generate_trajectory env0 rngHalf 0 (0, 0) (0, 9) none = p :: rest ∧
      p.velocity_x = 0 ∧ p.velocity_y = 0 ∧
      p.acceleration_x = 0 ∧ p.acceleration_y = 0 :=
  ⟨rfl, C9_first_point_zero_derivatives env0 rngHalf 0 (0, 0) (0, 9) none rfl⟩

/-- C10: in exact rational arithmetic `_ease_in_out_cubic` is a valid time
remapping: `f 0 = 0`, `f 1 = 1`, the two piecewise branch formulas agree
at `t = 1/2` (both give `1/2`), `f` is monotone non-decreasing on
`[0, 1]`, and consequently the curved-direct skeleton's last sampled point
(`t = 1`) lands exactly on the end position. -/
theorem C10_ease_in_out_cubic_valid (r : Rng) (s e : ℚ × ℚ) (d now : ℚ) :
    ease_in_out_cubic 0 = 0 ∧
    ease_in_out_cubic 1 = 1 ∧
    4 * (1 / 2 : ℚ) * (1 / 2) * (1 / 2) = ease_in_out_cubic (1 / 2) ∧
    ((1 / 2 : ℚ) - 1) * (2 * (1 / 2) - 2) * (2 * (1 / 2) - 2) + 1 =
      ease_in_out_cubic (1 / 2) ∧
    (∀ a b : ℚ, 0 ≤ a → a ≤ b → b ≤ 1 →
      ease_in_out_cubic a ≤ ease_in_out_cubic b) ∧
    (((generate_curved_direct_trajectory r s e d now).1).getLastD originPt).x =
      e.1 ∧
    (((generate_curved_direct_trajectory r s e d now).1).getLastD originPt).y =
      e.2 := by
  have hmain : ∀ a b : ℚ, 0 ≤ a → a ≤ b → b ≤ 1 →
      ease_in_out_cubic a ≤ ease_in_out_cubic b := by
    intro a b ha hab hb1
    rcases lt_or_le a (1 / 2) with h1 | h1 <;> rcases lt_or_le b (1 / 2) with h2 | h2
    · rw [ease_in_out_cubic, ease_in_out_cubic, if_pos h1, if_pos h2]
      nlinarith [mul_nonneg (sub_nonneg.mpr hab) (sq_nonneg (a + b)),
        mul_nonneg (sub_nonneg.mpr hab) (sq_nonneg (a - b))]
    · rw [ease_in_out_cubic, ease_in_out_cubic, if_pos h1, if_neg (not_lt.mpr h2)]
      have e1 : (0 : ℚ) ≤ (1 - 2 * a) * (1 + 2 * a + 4 * a ^ 2) :=
        mul_nonneg (by linarith) (by linarith [sq_nonneg a])
      have e2 : (0 : ℚ) ≤ (2 * b - 1) * (1 + 2 * (1 - b) + 4 * (1 - b) ^ 2) :=
        mul_nonneg (by linarith) (by linarith [sq_nonneg (1 - b)])
      nlinarith [e1, e2]
    · linarith
    · rw [ease_in_out_cubic, ease_in_out_cubic, if_neg (not_lt.mpr h1),
        if_neg (not_lt.mpr h2)]
      nlinarith [mul_nonneg (sub_nonneg.mpr hab) (sq_nonneg (a + b - 2)),
        mul_nonneg (sub_nonneg.mpr hab) (sq_nonneg (a - b))]
  have hn0 : ((numPointsFor d ((r.uniform min_time_interval
      max_time_interval).1) : ℕ) : ℚ) ≠ 0 := by
    have h10 := numPointsFor_ge_ten d ((r.uniform min_time_interval
      max_time_interval).1)
    exact Nat.cast_ne_zero.mpr (by omega)
  refine ⟨by norm_num [ease_in_out_cubic], by norm_num [ease_in_out_cubic],
    by norm_num [ease_in_out_cubic], by norm_num [ease_in_out_cubic],
    hmain, ?_, ?_⟩
  · simp only [generate_curved_direct_trajectory, map_range_getLastD]
    rw [div_self hn0]
    rw [show ease_in_out_cubic 1 = 1 from by norm_num [ease_in_out_cubic]]
    ring
  · simp only [generate_curved_direct_trajectory, map_range_getLastD]
    rw [div_self hn0]
    rw [show ease_in_out_cubic 1 = 1 from by norm_num [ease_in_out_cubic]]
    ring
